import Mathlib

/-!
Shallow embedding of `src/main.rs` of `ytdlp-emby-organise`.

The program scans a source tree for `*.json` metadata records, filters and
parses them into a catalogue of video records (Scanner / Catalogue), groups
records by channel and partitions each channel into year-based seasons
(Partitioner), and projects the result onto a target directory tree of
directories and symbolic links (Projector), honoring a dry-run mode.

Paths are modelled as lists of path segments, the filesystem as an explicit
state of directories and symbolic links, and `chrono::NaiveDateTime` as a
calendar date plus seconds-of-day with the chronological (lexicographic)
order that `chrono` implements.
-/

open scoped List

namespace Ytdlp

/-- A filesystem path, as a list of segments (`PathBuf` components). -/
abbrev SegPath := List String

/-! ### `Path::file_stem` / `Path::extension`

Rust splits a file name at the *last* dot; if the portion before that dot is
empty (hidden files such as `.gitignore`) or there is no dot, the whole name
is the stem and there is no extension.  `splitLastDot cs` returns
`some (before, after)` for the last-dot split of `cs`, or `none` when `cs`
has no dot. -/

def splitLastDot : List Char → Option (List Char × List Char)
  | [] => none
  | c :: cs =>
    match splitLastDot cs with
    | some (b, a) => some (c :: b, a)
    | none => if c = '.' then some ([], cs) else none

/-- `Path::file_stem` of a single file name (the `..` special case of Rust's
`rsplit_file_at_dot` included). -/
def fileStem (s : String) : String :=
  if s = ".." then s
  else
    match splitLastDot s.data with
    | none => s
    | some ([], _) => s
    | some (b, _) => String.mk b

/-- `Path::extension` of a single file name. -/
def extension (s : String) : Option String :=
  if s = ".." then none
  else
    match splitLastDot s.data with
    | none => none
    | some ([], _) => none
    | some (_, a) => some (String.mk a)

/-- `PathBuf::extension`: the extension of the last path segment
(`file_name`). -/
def pathExtension (p : SegPath) : Option String :=
  match p.getLast? with
  | none => none
  | some s => extension s

/-! ### `chrono` dates -/

/-- `chrono::NaiveDateTime`: a proleptic-Gregorian calendar date plus the
seconds of the day.  `chrono` orders these values chronologically, which on
this representation is the lexicographic order on
`(year, month, day, secs)`. -/
structure NaiveDateTime where
  year : Int
  month : Nat
  day : Nat
  secs : Nat
deriving DecidableEq

/-- The chronological order of `chrono::NaiveDateTime` (lexicographic on
year, month, day, seconds-of-day). -/
def NaiveDateTime.Le (a b : NaiveDateTime) : Prop :=
  a.year < b.year ∨
    (a.year = b.year ∧
      (a.month < b.month ∨
        (a.month = b.month ∧
          (a.day < b.day ∨ (a.day = b.day ∧ a.secs ≤ b.secs)))))

instance (a b : NaiveDateTime) : Decidable (NaiveDateTime.Le a b) := by
  unfold NaiveDateTime.Le; infer_instance

theorem NaiveDateTime.Le.total (a b : NaiveDateTime) : a.Le b ∨ b.Le a := by
  unfold NaiveDateTime.Le; omega

theorem NaiveDateTime.Le.trans_le {a b c : NaiveDateTime} (h1 : a.Le b)
    (h2 : b.Le c) : a.Le c := by
  unfold NaiveDateTime.Le at *; omega

/-- Civil-from-days: the proleptic Gregorian date of a day count relative to
the Unix epoch (the conversion underlying
`NaiveDateTime::from_timestamp`). -/
def civilFromDays (z0 : Int) : Int × Nat × Nat :=
  let z : Int := z0 + 719468
  let era : Int := z.fdiv 146097
  let doe : Nat := (z - era * 146097).toNat
  let yoe : Nat := (doe - doe / 1460 + doe / 36524 - doe / 146096) / 365
  let y : Int := (yoe : Int) + era * 400
  let doy : Nat := doe - (365 * yoe + yoe / 4 - yoe / 100)
  let mp : Nat := (5 * doy + 2) / 153
  let d : Nat := doy - (153 * mp + 2) / 5 + 1
  let m : Nat := if mp < 10 then mp + 3 else mp - 9
  (if m ≤ 2 then y + 1 else y, m, d)

/-- `NaiveDateTime::from_timestamp(t, 0)`: the calendar date of the epoch
day `t.div_euclid(86400)` plus the remaining seconds of the day. -/
def fromTimestamp (t : Int) : NaiveDateTime :=
  let days : Int := t.fdiv 86400
  let secs : Nat := (t - days * 86400).toNat
  let ymd := civilFromDays days
  ⟨ymd.1, ymd.2.1, ymd.2.2, secs⟩

/-- Gregorian leap year. -/
def isLeap (y : Int) : Bool :=
  (y % 4 == 0 && y % 100 != 0) || y % 400 == 0

/-- Length of a month in the proleptic Gregorian calendar. -/
def daysInMonth (y : Int) (m : Nat) : Nat :=
  if m = 2 then (if isLeap y then 29 else 28)
  else if m = 4 ∨ m = 6 ∨ m = 9 ∨ m = 11 then 30
  else 31

/-- Numeric value of a decimal digit character. -/
def digitVal (c : Char) : Nat := c.toNat - 48

/-- `NaiveDate::parse_from_str(s, "%Y%m%d")` on its 8-digit
`YYYYMMDD` form: four year digits, two month digits, two day digits,
validated as a real calendar date.  (`chrono` caps `%Y` at four digits and
`%m`/`%d` at two when parsing a run of digits, so an 8-digit string splits
exactly this way; non-8-digit all-digit strings fail to use up the input or
run out of it and are rejected, as here.) -/
def parseYmd (s : String) : Option (Int × Nat × Nat) :=
  match s.data with
  | [c1, c2, c3, c4, c5, c6, c7, c8] =>
    if (c1.isDigit && c2.isDigit && c3.isDigit && c4.isDigit &&
        c5.isDigit && c6.isDigit && c7.isDigit && c8.isDigit) then
      let y : Int := ((digitVal c1 * 1000 + digitVal c2 * 100 +
        digitVal c3 * 10 + digitVal c4 : Nat) : Int)
      let m : Nat := digitVal c5 * 10 + digitVal c6
      let d : Nat := digitVal c7 * 10 + digitVal c8
      if 1 ≤ m ∧ m ≤ 12 ∧ 1 ≤ d ∧ d ≤ daysInMonth y m then
        some (y, m, d)
      else none
    else none
  | _ => none

/-! ### Metadata records (`InfoJson`, `VideoJson`) -/

/-- The `video` variant payload of the tagged metadata record. -/
structure VideoJson where
  id : String
  title : String
  channel : String
  fulltitle : String
  upload_date : String
  timestamp : Option Int
  playlist_webpage_url : Option String
deriving DecidableEq

/-- The tagged union `InfoJson` (`_type` discriminator). -/
inductive InfoJson where
  | video (v : VideoJson)
  | playlist
deriving DecidableEq

/-- Errors surfaced by the run (`anyhow` errors; `panicNoExtension` stands
for the `unwrap` panic on a missing file extension, which aborts rather
than returning an error value). -/
inductive OsError where
  | alreadyExists
  | other
deriving DecidableEq

inductive Err where
  | jsonParse
  | dateParse
  | panicNoExtension
  | os (e : OsError)
deriving DecidableEq

/-- `VideoJson::get_date`: prefer the epoch `timestamp` when present,
otherwise parse `upload_date` as `%Y%m%d` (midnight of that date);
failure of the parse is an error. -/
def VideoJson.get_date (v : VideoJson) : Except Err NaiveDateTime :=
  match v.timestamp with
  | some t => .ok (fromTimestamp t)
  | none =>
    match parseYmd v.upload_date with
    | some (y, m, d) => .ok ⟨y, m, d, 0⟩
    | none => .error .dateParse

/-- `str::ends_with(suffix)`, as a suffix test on the character list. -/
def strEndsWith (s suffix : String) : Bool :=
  suffix.data.isSuffixOf s.data

/-- `str::replace("/", "_")`: every `/` becomes `_`, all other characters
unchanged (a single-character pattern replaces character-wise). -/
def replaceSlash (s : String) : String :=
  String.mk (s.data.map (fun c => if c = '/' then '_' else c))

/-- `VideoJson::is_short`: the source playlist URL, when present, ends with
the literal suffix `/shorts`. -/
def VideoJson.is_short (v : VideoJson) : Bool :=
  match v.playlist_webpage_url with
  | none => false
  | some s => strEndsWith s "/shorts"

/-! ### Catalogue entries and sidecar discovery -/

/-- One entry of the directory listing of the metadata file's parent
directory (`read_dir` result: name plus whether it is a regular file). -/
structure DirEntry where
  name : String
  isFile : Bool
deriving DecidableEq

/-- A catalogue entry: resolved date, raw record, sidecar paths. -/
structure CatalogueEntry where
  date : NaiveDateTime
  json : VideoJson
  path : List SegPath
deriving DecidableEq

/-- `CatalogueEntry::get_date`. -/
def CatalogueEntry.get_date (e : CatalogueEntry) : NaiveDateTime := e.date

/-- `CatalogueEntry::get_title`: `fulltitle` when its byte length (Rust
`String::len`) exceeds 1, else `title`. -/
def CatalogueEntry.get_title (e : CatalogueEntry) : String :=
  if 1 < e.json.fulltitle.utf8ByteSize then e.json.fulltitle else e.json.title

/-- `CatalogueEntry::get_other_files`: if the metadata file name does not
end with `.info.json`, the empty list; otherwise the metadata file's own
path followed by every regular file of the parent directory whose
`file_stem` equals the metadata name with `.info.json` stripped
(Rust slices off the last 10 bytes; the suffix is ASCII, so this is the
last 10 characters).  `parent` is the parent directory's path and
`listing` the `read_dir` enumeration. -/
def CatalogueEntry.get_other_files (parent : SegPath) (fileName : String)
    (listing : List DirEntry) : List SegPath :=
  if ".info.json".data.isSuffixOf fileName.data then
    let stripped := String.mk (fileName.data.take (fileName.data.length - 10))
    (parent ++ [fileName]) ::
      ((listing.filter (fun e => e.isFile && fileStem e.name == stripped)).map
        (fun e => parent ++ [e.name]))
  else []

/-- `CatalogueEntry::new` after the serde parse: a `playlist` record or a
short-form video yields no entry; otherwise the date is resolved (its
failure is propagated) and the sidecar paths collected. -/
def CatalogueEntry.new (json : InfoJson) (parent : SegPath) (fileName : String)
    (listing : List DirEntry) : Except Err (Option CatalogueEntry) :=
  match json with
  | .video v =>
    if v.is_short then .ok none
    else
      match v.get_date with
      | .error e => .error e
      | .ok d => .ok (some ⟨d, v, CatalogueEntry.get_other_files parent fileName listing⟩)
  | .playlist => .ok none

/-- One file met by the directory walk: its name, parent directory, the
outcome of parsing its contents as `InfoJson` (`.error` for a serde
failure), and the listing of its parent directory. -/
structure SourceFile where
  name : String
  parent : SegPath
  json : Except Err InfoJson
  listing : List DirEntry

/-- `VideoCatalogue::build`: keep files whose extension is `json`, parse
each (a parse failure aborts the whole run), collect the entries that
`CatalogueEntry::new` retains, in walk order. -/
def VideoCatalogue.build : List SourceFile → Except Err (List CatalogueEntry)
  | [] => .ok []
  | f :: fs =>
    if extension f.name == some "json" then
      match f.json with
      | .error e => .error e
      | .ok j =>
        match CatalogueEntry.new j f.parent f.name f.listing with
        | .error e => .error e
        | .ok none => VideoCatalogue.build fs
        | .ok (some entry) =>
          match VideoCatalogue.build fs with
          | .error e => .error e
          | .ok rest => .ok (entry :: rest)
    else VideoCatalogue.build fs

/-! ### Grouping by channel (`by_channel`)

`into_group_map_by` builds a hash map from channel name to the entries with
that exact channel string, in encounter order; the group of a key is thus
the `filter` of the scan output by that key, and the key set is the set of
channels that occur. -/

/-- The group of channel `c` in the `by_channel()` map. -/
def VideoCatalogue.by_channel (raw : List CatalogueEntry) (c : String) :
    List CatalogueEntry :=
  raw.filter (fun e => e.json.channel == c)

/-- The key set of the `by_channel()` map (one key per occurring channel;
the hash map's iteration order is unspecified, only the set matters). -/
def VideoCatalogue.channelKeys (raw : List CatalogueEntry) : List String :=
  (raw.map (fun e => e.json.channel)).dedup

/-! ### Partitioner (`build_channel`) -/

/-- A season: its 1-based number and its videos in date order. -/
structure Season where
  number : Nat
  videos : List CatalogueEntry
deriving DecidableEq

/-- One channel's name and ordered seasons. -/
structure SeasonedStructure where
  channel_name : String
  seasons : List Season
deriving DecidableEq

/-- The sort order of `vids.sort_by_key(|a| a.date)`: the chronological
order of the `date` keys. -/
def entryLe (a b : CatalogueEntry) : Prop :=
  NaiveDateTime.Le a.date b.date

instance : DecidableRel entryLe := by
  unfold entryLe; infer_instance

instance : IsTotal CatalogueEntry entryLe :=
  ⟨fun a b => NaiveDateTime.Le.total a.date b.date⟩

instance : IsTrans CatalogueEntry entryLe :=
  ⟨fun _ _ _ => NaiveDateTime.Le.trans_le⟩

/-- `vids.sort_by_key(|a| a.date)` — Rust's stable sort by the `date` key.
A stable sort's output is determined by the key order alone, so it is
embedded as insertion sort, the canonical stable sort. -/
def sortVids (vids : List CatalogueEntry) : List CatalogueEntry :=
  vids.insertionSort entryLe

/-- Accumulator loop of `chunk_by_year`: `acc` is the currently open run
(non-empty, all of year `key`). -/
def chunkAux (key : Int) (acc : List CatalogueEntry) :
    List CatalogueEntry → List (Int × List CatalogueEntry)
  | [] => [(key, acc)]
  | e :: rest =>
    if e.date.year == key then chunkAux key (acc ++ [e]) rest
    else (key, acc) :: chunkAux e.date.year [e] rest

/-- `Itertools::chunk_by(|v| v.date.year())`: maximal contiguous runs of a
shared calendar year, each with its year as key. -/
def chunk_by_year : List CatalogueEntry → List (Int × List CatalogueEntry)
  | [] => []
  | e :: rest => chunkAux e.date.year [e] rest

/-- `VideoCatalogue::build_channel`: sort the channel's records by date,
chunk by calendar year, and number the chunks 1, 2, 3, … in order. -/
def VideoCatalogue.build_channel (name : String) (vids : List CatalogueEntry) :
    SeasonedStructure :=
  let sorted := sortVids vids
  let seasons := (chunk_by_year sorted).enum.map
    (fun p => Season.mk (p.1 + 1) p.2.2)
  ⟨name, seasons⟩

/-! ### Projector (`DirectoryBuilder`)

The target filesystem is modelled as an explicit state of directories and
symbolic links.  `std::os::unix::fs::symlink` fails with `AlreadyExists`
when the destination path is occupied and otherwise creates the link;
`std::fs::create_dir_all` creates the directory and its missing ancestors
and succeeds when they already exist.  Environmental failures (permissions,
I/O) are outside the model. -/

/-- The target filesystem state: existing directories, and symbolic links
as (link path, pointee) pairs. -/
structure FS where
  dirs : List SegPath
  links : List (SegPath × SegPath)
deriving DecidableEq

/-- A path is occupied when a directory or a link lives there. -/
def FS.Occupied (fs : FS) (p : SegPath) : Prop :=
  p ∈ fs.dirs ∨ p ∈ fs.links.map Prod.fst

instance (fs : FS) (p : SegPath) : Decidable (FS.Occupied fs p) := by
  unfold FS.Occupied; infer_instance

/-- `std::os::unix::fs::symlink`: error `AlreadyExists` on an occupied
destination, otherwise add the link. -/
def symlinkOS (fs : FS) (source target : SegPath) : Except OsError FS :=
  if fs.Occupied target then .error .alreadyExists
  else .ok { fs with links := (target, source) :: fs.links }

/-- Add one directory if absent. -/
def FS.addDir (fs : FS) (p : SegPath) : FS :=
  if p ∈ fs.dirs then fs else { fs with dirs := p :: fs.dirs }

/-- All non-empty prefixes of a path: the path and its ancestors. -/
def ancestorsOf (p : SegPath) : List SegPath :=
  (List.range p.length).map (fun i => p.take (i + 1))

/-- `std::fs::create_dir_all`: ensure the path and all its ancestors
exist as directories. -/
def createDirAllOS (fs : FS) (p : SegPath) : FS :=
  (ancestorsOf p).foldl FS.addDir fs

/-- One reported operation (the `println!` trace of a link or directory
creation, emitted in dry-run or verbose mode). -/
inductive Op where
  | mkdir (p : SegPath)
  | link (source target : SegPath)
deriving DecidableEq

deriving instance DecidableEq for Except

/-- Result of a projector step: the filesystem afterwards, the reported
operations in order, and the outcome. -/
structure FsResult (X : Type) where
  fs : FS
  ops : List Op
  res : Except Err X
deriving DecidableEq

/-- `DirectoryBuilder`: one channel's structure, the channel's base
directory, and the two mode flags. -/
structure DirectoryBuilder where
  channel : SeasonedStructure
  base : SegPath
  dry_run : Bool
  verbose : Bool

/-- `DirectoryBuilder::new`: the base is the target base plus the channel
name; `verbose` is always `true`. -/
def DirectoryBuilder.new (base_path : SegPath) (channel : SeasonedStructure)
    (dry_run : Bool) : DirectoryBuilder :=
  ⟨channel, base_path ++ [channel.channel_name], dry_run, true⟩

/-- `DirectoryBuilder::create_symlink`: report when in dry-run or verbose
mode; in dry-run mode return before the write; otherwise create the link,
treating `AlreadyExists` as success. -/
def DirectoryBuilder.create_symlink (b : DirectoryBuilder)
    (source target : SegPath) (fs : FS) : FsResult Unit :=
  let ops := if b.dry_run || b.verbose then [Op.link source target] else []
  if b.dry_run then ⟨fs, ops, .ok ()⟩
  else
    match symlinkOS fs source target with
    | .ok fs' => ⟨fs', ops, .ok ()⟩
    | .error e =>
      if e = .alreadyExists then ⟨fs, ops, .ok ()⟩
      else ⟨fs, ops, .error (.os e)⟩

/-- The loop body of `link_video_data` over the entry's sidecar paths:
`file.extension().unwrap()` panics when a sidecar path has no extension;
otherwise the link target is the season directory plus the sanitized base
name with the sidecar's extension. -/
def linkFiles (b : DirectoryBuilder) (season_dir : SegPath)
    (base_file_name : String) : List SegPath → FS → FsResult Unit
  | [], fs => ⟨fs, [], .ok ()⟩
  | file :: rest, fs =>
    match pathExtension file with
    | none => ⟨fs, [], .error .panicNoExtension⟩
    | some ext =>
      let target := season_dir ++ [base_file_name ++ "." ++ ext]
      let r := b.create_symlink file target fs
      match r.res with
      | .error e => ⟨r.fs, r.ops, .error e⟩
      | .ok _ =>
        let r2 := linkFiles b season_dir base_file_name rest r.fs
        ⟨r2.fs, r.ops ++ r2.ops, r2.res⟩

/-- `DirectoryBuilder::link_video_data`: the base name is the display title
with every `/` replaced by `_`; one link per sidecar path.  (`ep_no` is
passed by the caller but unused, as in the source.) -/
def DirectoryBuilder.link_video_data (b : DirectoryBuilder)
    (season_dir : SegPath) (ep_no : Nat) (entry : CatalogueEntry) (fs : FS) :
    FsResult Unit :=
  linkFiles b season_dir (replaceSlash entry.get_title) entry.path fs

/-- `DirectoryBuilder::create_season_directory`: the directory
`<base>/Season <N>`; report, in dry-run mode return the path before the
write, otherwise create it. -/
def DirectoryBuilder.create_season_directory (b : DirectoryBuilder)
    (season : Season) (fs : FS) : FsResult SegPath :=
  let season_dir := b.base ++ ["Season " ++ toString season.number]
  let ops := if b.dry_run || b.verbose then [Op.mkdir season_dir] else []
  if b.dry_run then ⟨fs, ops, .ok season_dir⟩
  else ⟨createDirAllOS fs season_dir, ops, .ok season_dir⟩

/-- `DirectoryBuilder::create_channel_directory`. -/
def DirectoryBuilder.create_channel_directory (b : DirectoryBuilder)
    (fs : FS) : FsResult Unit :=
  let ops := if b.dry_run || b.verbose then [Op.mkdir b.base] else []
  if b.dry_run then ⟨fs, ops, .ok ()⟩
  else ⟨createDirAllOS fs b.base, ops, .ok ()⟩

/-- The episode loop of `DirectoryBuilder::build` over one season's
videos (`.iter().enumerate()`, episode number `ep + 1`). -/
def buildEpisodes (b : DirectoryBuilder) (season_dir : SegPath) :
    List (Nat × CatalogueEntry) → FS → FsResult Unit
  | [], fs => ⟨fs, [], .ok ()⟩
  | (ep, vid) :: rest, fs =>
    let r := b.link_video_data season_dir (ep + 1) vid fs
    match r.res with
    | .error e => ⟨r.fs, r.ops, .error e⟩
    | .ok _ =>
      let r2 := buildEpisodes b season_dir rest r.fs
      ⟨r2.fs, r.ops ++ r2.ops, r2.res⟩

/-- The season loop of `DirectoryBuilder::build`. -/
def buildSeasons (b : DirectoryBuilder) :
    List Season → FS → FsResult Unit
  | [], fs => ⟨fs, [], .ok ()⟩
  | season :: rest, fs =>
    let r := b.create_season_directory season fs
    match r.res with
    | .error e => ⟨r.fs, r.ops, .error e⟩
    | .ok season_dir =>
      let r2 := buildEpisodes b season_dir season.videos.enum r.fs
      match r2.res with
      | .error e => ⟨r2.fs, r.ops ++ r2.ops, .error e⟩
      | .ok _ =>
        let r3 := buildSeasons b rest r2.fs
        ⟨r3.fs, r.ops ++ r2.ops ++ r3.ops, r3.res⟩

/-- `DirectoryBuilder::build`: channel directory, then each season's
directory and episode links, failing fast on the first error. -/
def DirectoryBuilder.build (b : DirectoryBuilder) (fs : FS) : FsResult Unit :=
  let r := b.create_channel_directory fs
  match r.res with
  | .error e => ⟨r.fs, r.ops, .error e⟩
  | .ok _ =>
    let r2 := buildSeasons b b.channel.seasons r.fs
    ⟨r2.fs, r.ops ++ r2.ops, r2.res⟩

/-! ## Lemmas about the Partitioner -/

theorem NaiveDateTime.Le.refl_le (a : NaiveDateTime) : a.Le a := by
  unfold NaiveDateTime.Le; omega

theorem entryLe_of_date_eq {a b : CatalogueEntry} (h : a.date = b.date) :
    entryLe a b := by
  unfold entryLe; rw [h]; exact NaiveDateTime.Le.refl_le b.date

theorem entryLe_year_le {a b : CatalogueEntry} (h : entryLe a b) :
    a.date.year ≤ b.date.year := by
  unfold entryLe NaiveDateTime.Le at h; omega

theorem sortVids_perm (vids : List CatalogueEntry) : sortVids vids ~ vids :=
  List.perm_insertionSort entryLe vids

theorem sortVids_sorted (vids : List CatalogueEntry) :
    List.Sorted entryLe (sortVids vids) :=
  List.sorted_insertionSort entryLe vids

/-- A stable sort fixes any run of mutually `≤`-related elements selected by
a predicate: the sorted list's restriction to them equals the input's. -/
theorem sortVids_filter_eq (vids : List CatalogueEntry)
    (p : CatalogueEntry → Bool)
    (hp : ∀ a b, p a = true → p b = true → entryLe a b) :
    (sortVids vids).filter p = vids.filter p := by
  have hpair : (vids.filter p).Pairwise entryLe := by
    refine List.pairwise_of_forall_mem_list ?_
    intro a ha b hb
    exact hp a b (List.of_mem_filter ha) (List.of_mem_filter hb)
  have hsub : vids.filter p <+ sortVids vids :=
    List.sublist_insertionSort hpair (List.filter_sublist vids)
  have h2 : vids.filter p <+ (sortVids vids).filter p := by
    have h3 := hsub.filter p
    rw [List.filter_filter] at h3
    simp only [Bool.and_self] at h3
    exact h3
  have hlen : ((sortVids vids).filter p).length = (vids.filter p).length :=
    ((sortVids_perm vids).filter p).length_eq
  exact (h2.eq_of_length hlen.symm).symm

theorem chunkAux_flatten (key : Int) (acc l : List CatalogueEntry) :
    ((chunkAux key acc l).map Prod.snd).flatten = acc ++ l := by
  induction l generalizing key acc with
  | nil => simp [chunkAux]
  | cons e rest ih =>
    by_cases h : e.date.year = key
    · simp only [chunkAux, h, beq_self_eq_true, if_true, ih]
      simp
    · have hb : (e.date.year == key) = false := by simpa using h
      simp only [chunkAux, hb, if_neg Bool.false_ne_true, List.map_cons,
        List.flatten_cons, ih]
      simp

theorem chunkAux_mem_year (key : Int) (acc l : List CatalogueEntry)
    (hacc : ∀ x ∈ acc, x.date.year = key) :
    ∀ c ∈ chunkAux key acc l, ∀ x ∈ c.2, x.date.year = c.1 := by
  induction l generalizing key acc with
  | nil =>
    intro c hc
    simp only [chunkAux, List.mem_singleton] at hc
    subst hc
    exact hacc
  | cons e rest ih =>
    intro c hc
    by_cases h : e.date.year = key
    · simp only [chunkAux, h, beq_self_eq_true, if_true] at hc
      refine ih key (acc ++ [e]) ?_ c hc
      intro x hx
      rcases List.mem_append.1 hx with hx | hx
      · exact hacc x hx
      · simp only [List.mem_singleton] at hx; subst hx; exact h
    · have hb : (e.date.year == key) = false := by simpa using h
      simp only [chunkAux, hb, if_neg Bool.false_ne_true, List.mem_cons] at hc
      rcases hc with hc | hc
      · subst hc; exact hacc
      · refine ih e.date.year [e] ?_ c hc
        intro x hx
        simp only [List.mem_singleton] at hx; subst hx; rfl

theorem chunkAux_snd_sublist (key : Int) (acc l : List CatalogueEntry) :
    ∀ c ∈ chunkAux key acc l, c.2 <+ acc ++ l := by
  induction l generalizing key acc with
  | nil =>
    intro c hc
    simp only [chunkAux, List.mem_singleton] at hc
    subst hc
    simpa using List.sublist_append_left acc []
  | cons e rest ih =>
    intro c hc
    by_cases h : e.date.year = key
    · simp only [chunkAux, h, beq_self_eq_true, if_true] at hc
      have := ih key (acc ++ [e]) c hc
      simpa [List.append_assoc] using this
    · have hb : (e.date.year == key) = false := by simpa using h
      simp only [chunkAux, hb, if_neg Bool.false_ne_true, List.mem_cons] at hc
      rcases hc with hc | hc
      · subst hc
        exact List.sublist_append_left acc (e :: rest)
      · have := ih e.date.year [e] c hc
        calc c.2 <+ [e] ++ rest := this
          _ <+ acc ++ (e :: rest) := List.sublist_append_right acc (e :: rest)

theorem chunkAux_keys_mem (key : Int) (acc l : List CatalogueEntry) :
    ∀ k ∈ (chunkAux key acc l).map Prod.fst,
      k = key ∨ ∃ x ∈ l, x.date.year = k := by
  induction l generalizing key acc with
  | nil =>
    intro k hk
    simp only [chunkAux, List.map_cons, List.map_nil, List.mem_singleton] at hk
    exact Or.inl hk
  | cons e rest ih =>
    intro k hk
    by_cases h : e.date.year = key
    · simp only [chunkAux, h, beq_self_eq_true, if_true] at hk
      rcases ih key (acc ++ [e]) k hk with hk | ⟨x, hx, hxy⟩
      · exact Or.inl hk
      · exact Or.inr ⟨x, List.mem_cons_of_mem e hx, hxy⟩
    · have hb : (e.date.year == key) = false := by simpa using h
      simp only [chunkAux, hb, if_neg Bool.false_ne_true, List.map_cons,
        List.mem_cons] at hk
      rcases hk with hk | hk
      · exact Or.inl hk
      · rcases ih e.date.year [e] k hk with hk | ⟨x, hx, hxy⟩
        · exact Or.inr ⟨e, List.mem_cons_self e rest, hk.symm⟩
        · exact Or.inr ⟨x, List.mem_cons_of_mem e hx, hxy⟩

theorem chunkAux_keys_lt (key : Int) (acc l : List CatalogueEntry)
    (hl : l.Pairwise (fun a b => a.date.year ≤ b.date.year))
    (hge : ∀ x ∈ l, key ≤ x.date.year) :
    ((chunkAux key acc l).map Prod.fst).Pairwise (· < ·) := by
  induction l generalizing key acc with
  | nil => simp [chunkAux]
  | cons e rest ih =>
    by_cases h : e.date.year = key
    · simp only [chunkAux, h, beq_self_eq_true, if_true]
      refine ih key (acc ++ [e]) hl.of_cons ?_
      intro x hx
      have := List.rel_of_pairwise_cons hl hx
      omega
    · have hb : (e.date.year == key) = false := by simpa using h
      simp only [chunkAux, hb, if_neg Bool.false_ne_true, List.map_cons]
      have hkey_lt : key < e.date.year := by
        have := hge e (List.mem_cons_self e rest)
        omega
      refine List.Pairwise.cons ?_ ?_
      · intro k hk
        rcases chunkAux_keys_mem e.date.year [e] rest k hk with hk | ⟨x, hx, hxy⟩
        · omega
        · have := List.rel_of_pairwise_cons hl hx
          omega
      · refine ih e.date.year [e] hl.of_cons ?_
        intro x hx
        exact List.rel_of_pairwise_cons hl hx

theorem chunk_by_year_flatten (l : List CatalogueEntry) :
    ((chunk_by_year l).map Prod.snd).flatten = l := by
  cases l with
  | nil => simp [chunk_by_year]
  | cons e rest => simpa using chunkAux_flatten e.date.year [e] rest

theorem chunk_by_year_mem_year (l : List CatalogueEntry) :
    ∀ c ∈ chunk_by_year l, ∀ x ∈ c.2, x.date.year = c.1 := by
  cases l with
  | nil => simp [chunk_by_year]
  | cons e rest =>
    refine chunkAux_mem_year e.date.year [e] rest ?_
    intro x hx
    simp only [List.mem_singleton] at hx; subst hx; rfl

theorem chunk_by_year_snd_sublist (l : List CatalogueEntry) :
    ∀ c ∈ chunk_by_year l, c.2 <+ l := by
  cases l with
  | nil => simp [chunk_by_year]
  | cons e rest =>
    intro c hc
    simpa using chunkAux_snd_sublist e.date.year [e] rest c hc

theorem chunk_by_year_keys_lt (l : List CatalogueEntry)
    (hl : l.Pairwise (fun a b => a.date.year ≤ b.date.year)) :
    ((chunk_by_year l).map Prod.fst).Pairwise (· < ·) := by
  cases l with
  | nil => simp [chunk_by_year]
  | cons e rest =>
    refine chunkAux_keys_lt e.date.year [e] rest hl.of_cons ?_
    intro x hx
    exact List.rel_of_pairwise_cons hl hx

theorem chunk_by_year_keys_iff (l : List CatalogueEntry) (y : Int) :
    y ∈ (chunk_by_year l).map Prod.fst ↔
      y ∈ l.map (fun e => e.date.year) := by
  constructor
  · intro hy
    cases l with
    | nil => simp [chunk_by_year] at hy
    | cons e rest =>
      rcases chunkAux_keys_mem e.date.year [e] rest y hy with hy | ⟨x, hx, hxy⟩
      · exact List.mem_map.2 ⟨e, List.mem_cons_self e rest, hy.symm⟩
      · exact List.mem_map.2 ⟨x, List.mem_cons_of_mem e hx, hxy⟩
  · intro hy
    rcases List.mem_map.1 hy with ⟨x, hx, hxy⟩
    have hx' : x ∈ ((chunk_by_year l).map Prod.snd).flatten := by
      rw [chunk_by_year_flatten]; exact hx
    rcases List.mem_flatten.1 hx' with ⟨s, hs, hxs⟩
    rcases List.mem_map.1 hs with ⟨c, hc, hcs⟩
    subst hcs
    have := chunk_by_year_mem_year l c hc x hxs
    exact List.mem_map.2 ⟨c, hc, by rw [← hxy, this]⟩

/-- The season numbers of `build_channel` are `1, 2, 3, …`. -/
theorem enum_map_add_one (l : List (Int × List CatalogueEntry)) :
    l.enum.map (fun p => p.1 + 1) = List.range' 1 l.length := by
  have h1 : l.enum.map (fun p => p.1 + 1) =
      (l.enum.map Prod.fst).map (fun i => i + 1) := by
    rw [List.map_map]; rfl
  rw [h1, List.enum_map_fst, List.range'_eq_map_range]
  exact List.map_congr_left (fun i _ => Nat.add_comm i 1)

theorem build_channel_numbers (name : String) (vids : List CatalogueEntry) :
    (VideoCatalogue.build_channel name vids).seasons.map Season.number =
      List.range' 1 (chunk_by_year (sortVids vids)).length := by
  unfold VideoCatalogue.build_channel
  simp only [List.map_map]
  have : (Season.number ∘ fun p : Nat × (Int × List CatalogueEntry) =>
      Season.mk (p.1 + 1) p.2.2) = fun p => p.1 + 1 := rfl
  rw [this, enum_map_add_one]

theorem build_channel_videos (name : String) (vids : List CatalogueEntry) :
    (VideoCatalogue.build_channel name vids).seasons.map Season.videos =
      (chunk_by_year (sortVids vids)).map Prod.snd := by
  unfold VideoCatalogue.build_channel
  simp only [List.map_map]
  have h1 : (Season.videos ∘ fun p : Nat × (Int × List CatalogueEntry) =>
      Season.mk (p.1 + 1) p.2.2) = Prod.snd ∘ Prod.snd := rfl
  rw [h1, ← List.map_map, List.enum_map_snd]

theorem sortVids_year_pairwise (vids : List CatalogueEntry) :
    (sortVids vids).Pairwise (fun a b => a.date.year ≤ b.date.year) :=
  (sortVids_sorted vids).imp (fun h => entryLe_year_le h)

/-! ## Sample data for concrete instances -/

/-- A sample parsed video record. -/
def sampleJson : VideoJson :=
  ⟨"id", "title", "chan", "fulltitle", "", some 0, none⟩

/-- A record dated in 2019. -/
def gapE2019 : CatalogueEntry :=
  ⟨⟨2019, 5, 1, 0⟩, sampleJson, [["src", "a.info.json"]]⟩

/-- A record dated in 2022; together with `gapE2019` the occurring years
are 2019 and 2022, with 2020 and 2021 absent. -/
def gapE2022 : CatalogueEntry :=
  ⟨⟨2022, 3, 2, 7⟩, sampleJson, [["src", "b.info.json"]]⟩

/-! ## Claim C1 -/

/-- C1: for every channel, `build_channel` numbers seasons consecutively
`1, 2, 3, …` (first conjunct), one season per maximal run of a calendar
year of the date-sorted records, whose keys are strictly ascending (second
conjunct) and are exactly the occurring years of the channel's records
(third conjunct); each season's videos are exactly one run (fourth
conjunct) and all carry that season's year (fifth conjunct).  In
particular, records dated only in 2019 and 2022 (2020/2021 absent) yield
exactly two seasons numbered 1 and 2 (last conjunct). -/
theorem C1_seasons_numbered_by_year_rank :
    (∀ name vids,
      (VideoCatalogue.build_channel name vids).seasons.map Season.number =
        List.range' 1 (chunk_by_year (sortVids vids)).length
      ∧ ((chunk_by_year (sortVids vids)).map Prod.fst).Pairwise (· < ·)
      ∧ (∀ y : Int, y ∈ (chunk_by_year (sortVids vids)).map Prod.fst ↔
          y ∈ vids.map (fun e => e.date.year))
      ∧ (VideoCatalogue.build_channel name vids).seasons.map Season.videos =
          (chunk_by_year (sortVids vids)).map Prod.snd
      ∧ (∀ c ∈ chunk_by_year (sortVids vids), ∀ x ∈ c.2, x.date.year = c.1))
    ∧ (VideoCatalogue.build_channel "chan" [gapE2022, gapE2019]).seasons.map
        (fun s => (s.number, s.videos.map (fun v => v.date.year))) =
        [(1, [2019]), (2, [2022])] := by
  constructor
  · intro name vids
    refine ⟨build_channel_numbers name vids,
      chunk_by_year_keys_lt _ (sortVids_year_pairwise vids), ?_,
      build_channel_videos name vids, chunk_by_year_mem_year _⟩
    intro y
    rw [chunk_by_year_keys_iff]
    exact ((sortVids_perm vids).map (fun e => e.date.year)).mem_iff
  · decide

/-- Witness for C1: its quantified conjuncts applied at the concrete
two-year input, discharging the membership and iff hypotheses there. -/
theorem C1_seasons_numbered_by_year_rank_witness :
    (2019 : Int) ∈
      (chunk_by_year (sortVids [gapE2022, gapE2019])).map Prod.fst ∧
    gapE2019.date.year = (2019 : Int) :=
  ⟨((C1_seasons_numbered_by_year_rank.1 "chan" [gapE2022, gapE2019]).2.2.1
      2019).2 (by decide),
    (C1_seasons_numbered_by_year_rank.1 "chan" [gapE2022, gapE2019]).2.2.2.2
      (2019, [gapE2019]) (by decide) gapE2019 (by decide)⟩

/-! ## Claim C2 -/

/-- C2: `build_channel` first sorts the channel's records by date
ascending (first conjunct) stably — records of equal date keep their
pre-sort relative order (second conjunct); the produced seasons are in
strictly ascending season-number order (third conjunct), each season's
videos are non-decreasingly ordered by date (fourth conjunct), and the
concatenation of all seasons' videos is a permutation of the channel's
records, i.e. reproduces them with multiplicity 1 (last conjunct). -/
theorem C2_build_channel_sorts_and_partitions (name : String)
    (vids : List CatalogueEntry) :
    List.Sorted entryLe (sortVids vids)
    ∧ (∀ d, (sortVids vids).filter (fun e => e.date == d) =
        vids.filter (fun e => e.date == d))
    ∧ ((VideoCatalogue.build_channel name vids).seasons.map
        Season.number).Pairwise (· < ·)
    ∧ (∀ s ∈ (VideoCatalogue.build_channel name vids).seasons,
        List.Sorted entryLe s.videos)
    ∧ ((VideoCatalogue.build_channel name vids).seasons.map
        Season.videos).flatten ~ vids := by
  refine ⟨sortVids_sorted vids, ?_, ?_, ?_, ?_⟩
  · intro d
    refine sortVids_filter_eq vids _ ?_
    intro a b ha hb
    have ha' : a.date = d := by simpa using ha
    have hb' : b.date = d := by simpa using hb
    exact entryLe_of_date_eq (ha'.trans hb'.symm)
  · rw [build_channel_numbers]
    exact List.pairwise_lt_range' 1 _
  · intro s hs
    have hv : s.videos ∈ (VideoCatalogue.build_channel name vids).seasons.map
        Season.videos := List.mem_map_of_mem Season.videos hs
    rw [build_channel_videos] at hv
    rcases List.mem_map.1 hv with ⟨c, hc, hcv⟩
    have hsub : c.2 <+ sortVids vids := chunk_by_year_snd_sublist _ c hc
    rw [← hcv]
    exact List.Pairwise.sublist hsub (sortVids_sorted vids)
  · rw [build_channel_videos, chunk_by_year_flatten]
    exact sortVids_perm vids

/-- Witness for C2: the stability and per-season-sortedness conjuncts
applied at a concrete input with a date tie, hypotheses discharged
concretely. -/
theorem C2_build_channel_sorts_and_partitions_witness :
    List.Sorted entryLe
      ((VideoCatalogue.build_channel "chan"
        [gapE2022, gapE2019]).seasons.headD ⟨0, []⟩).videos :=
  (C2_build_channel_sorts_and_partitions "chan" [gapE2022, gapE2019]).2.2.2.1
    ((VideoCatalogue.build_channel "chan" [gapE2022, gapE2019]).seasons.headD
      ⟨0, []⟩)
    (by decide)

/-! ## Lemmas about the Projector's filesystem model -/

/-- `fs` is contained in `g`: every directory and link of `fs` is in `g`.
All projector steps only grow the filesystem. -/
def FS.Sub (fs g : FS) : Prop :=
  (∀ p ∈ fs.dirs, p ∈ g.dirs) ∧ (∀ l ∈ fs.links, l ∈ g.links)

theorem FS.Sub.refl_sub (fs : FS) : fs.Sub fs :=
  ⟨fun _ h => h, fun _ h => h⟩

theorem FS.Sub.trans_sub {fs g h : FS} (h1 : fs.Sub g) (h2 : g.Sub h) :
    fs.Sub h :=
  ⟨fun p hp => h2.1 p (h1.1 p hp), fun l hl => h2.2 l (h1.2 l hl)⟩

theorem FS.Occupied.mono {fs g : FS} (hsub : fs.Sub g) {p : SegPath}
    (ho : fs.Occupied p) : g.Occupied p := by
  rcases ho with ho | ho
  · exact Or.inl (hsub.1 p ho)
  · rcases List.mem_map.1 ho with ⟨l, hl, hlp⟩
    exact Or.inr (List.mem_map.2 ⟨l, hsub.2 l hl, hlp⟩)

theorem addDir_sub (fs : FS) (p : SegPath) : fs.Sub (fs.addDir p) := by
  unfold FS.addDir
  by_cases h : p ∈ fs.dirs
  · simp only [if_pos h]; exact FS.Sub.refl_sub fs
  · simp only [if_neg h]
    exact ⟨fun q hq => List.mem_cons_of_mem p hq, fun l hl => hl⟩

theorem mem_addDir (fs : FS) (p : SegPath) : p ∈ (fs.addDir p).dirs := by
  unfold FS.addDir
  by_cases h : p ∈ fs.dirs
  · simp only [if_pos h]; exact h
  · simp only [if_neg h]; exact List.mem_cons_self p fs.dirs

theorem foldl_addDir_sub (qs : List SegPath) (fs : FS) :
    fs.Sub (qs.foldl FS.addDir fs) := by
  induction qs generalizing fs with
  | nil => exact FS.Sub.refl_sub fs
  | cons q qs ih =>
    exact (addDir_sub fs q).trans_sub (ih (fs.addDir q))

theorem foldl_addDir_mem (qs : List SegPath) (fs : FS) :
    ∀ q ∈ qs, q ∈ (qs.foldl FS.addDir fs).dirs := by
  induction qs generalizing fs with
  | nil => intro q hq; simp at hq
  | cons a qs ih =>
    intro q hq
    rcases List.mem_cons.1 hq with hq | hq
    · subst hq
      exact (foldl_addDir_sub qs (fs.addDir q)).1 q (mem_addDir fs q)
    · exact ih (fs.addDir a) q hq

theorem foldl_addDir_of_mem (qs : List SegPath) (fs : FS)
    (h : ∀ q ∈ qs, q ∈ fs.dirs) : qs.foldl FS.addDir fs = fs := by
  induction qs generalizing fs with
  | nil => rfl
  | cons a qs ih =>
    have ha : fs.addDir a = fs := by
      unfold FS.addDir
      simp only [if_pos (h a (List.mem_cons_self a qs))]
    rw [List.foldl_cons, ha]
    exact ih fs (fun q hq => h q (List.mem_cons_of_mem a hq))

theorem createDirAllOS_sub (fs : FS) (p : SegPath) :
    fs.Sub (createDirAllOS fs p) :=
  foldl_addDir_sub (ancestorsOf p) fs

theorem createDirAllOS_mem (fs : FS) (p : SegPath) :
    ∀ q ∈ ancestorsOf p, q ∈ (createDirAllOS fs p).dirs :=
  foldl_addDir_mem (ancestorsOf p) fs

theorem createDirAllOS_of_mem (fs : FS) (p : SegPath)
    (h : ∀ q ∈ ancestorsOf p, q ∈ fs.dirs) : createDirAllOS fs p = fs :=
  foldl_addDir_of_mem (ancestorsOf p) fs h

/-- Characterization of `create_symlink` outside dry-run mode: it always
succeeds, leaving the state unchanged when the target is occupied and
adding the link otherwise. -/
theorem create_symlink_eq (b : DirectoryBuilder) (hb : b.dry_run = false)
    (src tgt : SegPath) (fs : FS) :
    b.create_symlink src tgt fs =
      ⟨if fs.Occupied tgt then fs
        else { fs with links := (tgt, src) :: fs.links },
       if b.dry_run || b.verbose then [Op.link src tgt] else [],
       .ok ()⟩ := by
  unfold DirectoryBuilder.create_symlink symlinkOS
  rw [hb]
  by_cases h : fs.Occupied tgt <;> simp [h]

theorem create_symlink_sub (b : DirectoryBuilder) (hb : b.dry_run = false)
    (src tgt : SegPath) (fs : FS) :
    fs.Sub (b.create_symlink src tgt fs).fs := by
  rw [create_symlink_eq b hb]
  by_cases h : fs.Occupied tgt
  · simp only [if_pos h]; exact FS.Sub.refl_sub fs
  · simp only [if_neg h]
    exact ⟨fun p hp => hp, fun l hl => List.mem_cons_of_mem _ hl⟩

theorem create_symlink_occupied (b : DirectoryBuilder)
    (hb : b.dry_run = false) (src tgt : SegPath) (fs : FS) :
    (b.create_symlink src tgt fs).fs.Occupied tgt := by
  rw [create_symlink_eq b hb]
  by_cases h : fs.Occupied tgt
  · simp only [if_pos h]; exact h
  · simp only [if_neg h]
    exact Or.inr (List.mem_map.2 ⟨(tgt, src), List.mem_cons_self _ _, rfl⟩)

theorem create_symlink_of_occupied (b : DirectoryBuilder)
    (hb : b.dry_run = false) (src tgt : SegPath) (g : FS)
    (h : g.Occupied tgt) :
    b.create_symlink src tgt g =
      ⟨g, if b.dry_run || b.verbose then [Op.link src tgt] else [],
       .ok ()⟩ := by
  rw [create_symlink_eq b hb, if_pos h]

theorem create_symlink_ops (b : DirectoryBuilder) (src tgt : SegPath)
    (fs : FS) :
    (b.create_symlink src tgt fs).ops =
      if b.dry_run || b.verbose then [Op.link src tgt] else [] := by
  unfold DirectoryBuilder.create_symlink
  cases hd : b.dry_run
  · simp only [hd, Bool.false_or, if_neg Bool.false_ne_true]
    cases symlinkOS fs src tgt with
    | ok fs' => rfl
    | error e => by_cases he : e = OsError.alreadyExists <;> simp [he]
  · rfl

theorem linkFiles_cons_none (b : DirectoryBuilder) (sd : SegPath)
    (nm : String) (file : SegPath) (rest : List SegPath) (fs : FS)
    (hx : pathExtension file = none) :
    linkFiles b sd nm (file :: rest) fs =
      ⟨fs, [], .error .panicNoExtension⟩ := by
  rw [linkFiles, hx]

theorem linkFiles_cons_match (b : DirectoryBuilder) (sd : SegPath)
    (nm : String) (file : SegPath) (rest : List SegPath)
    (fs : FS) (ext : String) (hx : pathExtension file = some ext) :
    linkFiles b sd nm (file :: rest) fs =
      match (b.create_symlink file (sd ++ [nm ++ "." ++ ext]) fs).res with
      | .error e =>
        ⟨(b.create_symlink file (sd ++ [nm ++ "." ++ ext]) fs).fs,
         (b.create_symlink file (sd ++ [nm ++ "." ++ ext]) fs).ops,
         .error e⟩
      | .ok _ =>
        ⟨(linkFiles b sd nm rest
            (b.create_symlink file (sd ++ [nm ++ "." ++ ext]) fs).fs).fs,
         (b.create_symlink file (sd ++ [nm ++ "." ++ ext]) fs).ops ++
           (linkFiles b sd nm rest
             (b.create_symlink file (sd ++ [nm ++ "." ++ ext]) fs).fs).ops,
         (linkFiles b sd nm rest
           (b.create_symlink file (sd ++ [nm ++ "." ++ ext]) fs).fs).res⟩ := by
  rw [linkFiles, hx]

theorem linkFiles_cons_some (b : DirectoryBuilder) (hb : b.dry_run = false)
    (sd : SegPath) (nm : String) (file : SegPath) (rest : List SegPath)
    (fs : FS) (ext : String) (hx : pathExtension file = some ext) :
    linkFiles b sd nm (file :: rest) fs =
      ⟨(linkFiles b sd nm rest
          (b.create_symlink file (sd ++ [nm ++ "." ++ ext]) fs).fs).fs,
       (b.create_symlink file (sd ++ [nm ++ "." ++ ext]) fs).ops ++
         (linkFiles b sd nm rest
           (b.create_symlink file (sd ++ [nm ++ "." ++ ext]) fs).fs).ops,
       (linkFiles b sd nm rest
         (b.create_symlink file (sd ++ [nm ++ "." ++ ext]) fs).fs).res⟩ := by
  rw [linkFiles_cons_match b sd nm file rest fs ext hx,
    create_symlink_eq b hb]

/-- `linkFiles` outside dry-run mode: on success the filesystem only grew,
and replaying from any state `g` that contains the final state leaves `g`
unchanged, reports the same operations, and succeeds. -/
theorem linkFiles_replay (b : DirectoryBuilder) (hb : b.dry_run = false)
    (sd : SegPath) (nm : String) (files : List SegPath) :
    ∀ fs : FS, (linkFiles b sd nm files fs).res = .ok () →
      fs.Sub (linkFiles b sd nm files fs).fs ∧
      ∀ g : FS, (linkFiles b sd nm files fs).fs.Sub g →
        linkFiles b sd nm files g =
          ⟨g, (linkFiles b sd nm files fs).ops, .ok ()⟩ := by
  induction files with
  | nil =>
    intro fs _
    exact ⟨FS.Sub.refl_sub fs, fun g _ => rfl⟩
  | cons file rest ih =>
    intro fs hok
    cases hx : pathExtension file with
    | none =>
      rw [linkFiles_cons_none b sd nm file rest fs hx] at hok
      exact absurd hok (by simp)
    | some ext =>
      rw [linkFiles_cons_some b hb sd nm file rest fs ext hx] at hok
      set tgt := sd ++ [nm ++ "." ++ ext] with htgt
      set fs1 := (b.create_symlink file tgt fs).fs with hfs1
      have hok1 : (linkFiles b sd nm rest fs1).res = .ok () := hok
      have hsub1 : fs.Sub fs1 := create_symlink_sub b hb file tgt fs
      have hocc1 : fs1.Occupied tgt := create_symlink_occupied b hb file tgt fs
      rcases ih fs1 hok1 with ⟨hsub2, hreplay⟩
      rw [linkFiles_cons_some b hb sd nm file rest fs ext hx]
      refine ⟨hsub1.trans_sub hsub2, ?_⟩
      intro g hg
      have hg' : (linkFiles b sd nm rest fs1).fs.Sub g := hg
      have hoccg : g.Occupied tgt :=
        FS.Occupied.mono (hsub2.trans_sub hg') hocc1
      rw [linkFiles_cons_some b hb sd nm file rest g ext hx,
        create_symlink_of_occupied b hb file tgt g hoccg]
      simp only
      rw [hreplay g hg']
      simp only [create_symlink_ops]

theorem buildEpisodes_cons (b : DirectoryBuilder) (sd : SegPath) (ep : Nat)
    (vid : CatalogueEntry) (rest : List (Nat × CatalogueEntry)) (fs : FS) :
    buildEpisodes b sd ((ep, vid) :: rest) fs =
      match (b.link_video_data sd (ep + 1) vid fs).res with
      | .error e => ⟨(b.link_video_data sd (ep + 1) vid fs).fs,
          (b.link_video_data sd (ep + 1) vid fs).ops, .error e⟩
      | .ok _ => ⟨(buildEpisodes b sd rest
            (b.link_video_data sd (ep + 1) vid fs).fs).fs,
          (b.link_video_data sd (ep + 1) vid fs).ops ++
            (buildEpisodes b sd rest
              (b.link_video_data sd (ep + 1) vid fs).fs).ops,
          (buildEpisodes b sd rest
            (b.link_video_data sd (ep + 1) vid fs).fs).res⟩ := by
  rw [buildEpisodes]

/-- `buildEpisodes` replay, same statement shape as `linkFiles_replay`. -/
theorem buildEpisodes_replay (b : DirectoryBuilder) (hb : b.dry_run = false)
    (sd : SegPath) (vids : List (Nat × CatalogueEntry)) :
    ∀ fs : FS, (buildEpisodes b sd vids fs).res = .ok () →
      fs.Sub (buildEpisodes b sd vids fs).fs ∧
      ∀ g : FS, (buildEpisodes b sd vids fs).fs.Sub g →
        buildEpisodes b sd vids g =
          ⟨g, (buildEpisodes b sd vids fs).ops, .ok ()⟩ := by
  induction vids with
  | nil =>
    intro fs _
    exact ⟨FS.Sub.refl_sub fs, fun g _ => rfl⟩
  | cons pv rest ih =>
    intro fs hok
    obtain ⟨ep, vid⟩ := pv
    rw [buildEpisodes_cons] at hok
    cases hres : (b.link_video_data sd (ep + 1) vid fs).res with
    | error e =>
      rw [hres] at hok
      exact absurd hok (by simp)
    | ok u =>
      rw [hres] at hok
      have hok2 : (buildEpisodes b sd rest
          (b.link_video_data sd (ep + 1) vid fs).fs).res = .ok () := hok
      have hres' : (linkFiles b sd (replaceSlash vid.get_title) vid.path
          fs).res = .ok () := hres
      rcases linkFiles_replay b hb sd (replaceSlash vid.get_title) vid.path
        fs hres' with ⟨hsub1, hreplay1⟩
      rcases ih _ hok2 with ⟨hsub2, hreplay2⟩
      rw [buildEpisodes_cons, hres]
      refine ⟨hsub1.trans_sub hsub2, ?_⟩
      intro g hg
      have hg' : (buildEpisodes b sd rest
          (b.link_video_data sd (ep + 1) vid fs).fs).fs.Sub g := hg
      rw [buildEpisodes_cons]
      have hlv : b.link_video_data sd (ep + 1) vid g =
          ⟨g, (b.link_video_data sd (ep + 1) vid fs).ops, .ok ()⟩ :=
        hreplay1 g (hsub2.trans_sub hg')
      rw [hlv]
      simp only
      rw [hreplay2 g hg']

/-- `create_season_directory` outside dry-run mode. -/
theorem create_season_directory_eq (b : DirectoryBuilder)
    (hb : b.dry_run = false) (season : Season) (fs : FS) :
    b.create_season_directory season fs =
      ⟨createDirAllOS fs (b.base ++ ["Season " ++ toString season.number]),
       if b.dry_run || b.verbose
         then [Op.mkdir (b.base ++ ["Season " ++ toString season.number])]
         else [],
       .ok (b.base ++ ["Season " ++ toString season.number])⟩ := by
  unfold DirectoryBuilder.create_season_directory
  rw [hb]
  simp

theorem buildSeasons_cons (b : DirectoryBuilder) (hb : b.dry_run = false)
    (season : Season) (rest : List Season) (fs : FS) :
    buildSeasons b (season :: rest) fs =
      match (buildEpisodes b (b.base ++ ["Season " ++ toString season.number])
          season.videos.enum
          (createDirAllOS fs
            (b.base ++ ["Season " ++ toString season.number]))).res with
      | .error e =>
        ⟨(buildEpisodes b (b.base ++ ["Season " ++ toString season.number])
            season.videos.enum
            (createDirAllOS fs
              (b.base ++ ["Season " ++ toString season.number]))).fs,
         (if b.dry_run || b.verbose
           then [Op.mkdir (b.base ++ ["Season " ++ toString season.number])]
           else []) ++
           (buildEpisodes b (b.base ++ ["Season " ++ toString season.number])
             season.videos.enum
             (createDirAllOS fs
               (b.base ++ ["Season " ++ toString season.number]))).ops,
         .error e⟩
      | .ok _ =>
        ⟨(buildSeasons b rest
            (buildEpisodes b (b.base ++ ["Season " ++ toString season.number])
              season.videos.enum
              (createDirAllOS fs
                (b.base ++
                  ["Season " ++ toString season.number]))).fs).fs,
         (if b.dry_run || b.verbose
           then [Op.mkdir (b.base ++ ["Season " ++ toString season.number])]
           else []) ++
           (buildEpisodes b (b.base ++ ["Season " ++ toString season.number])
             season.videos.enum
             (createDirAllOS fs
               (b.base ++ ["Season " ++ toString season.number]))).ops ++
           (buildSeasons b rest
             (buildEpisodes b
               (b.base ++ ["Season " ++ toString season.number])
               season.videos.enum
               (createDirAllOS fs
                 (b.base ++
                   ["Season " ++ toString season.number]))).fs).ops,
         (buildSeasons b rest
           (buildEpisodes b (b.base ++ ["Season " ++ toString season.number])
             season.videos.enum
             (createDirAllOS fs
               (b.base ++
                 ["Season " ++ toString season.number]))).fs).res⟩ := by
  rw [buildSeasons, create_season_directory_eq b hb]

/-- `buildSeasons` replay. -/
theorem buildSeasons_replay (b : DirectoryBuilder) (hb : b.dry_run = false)
    (seasons : List Season) :
    ∀ fs : FS, (buildSeasons b seasons fs).res = .ok () →
      fs.Sub (buildSeasons b seasons fs).fs ∧
      ∀ g : FS, (buildSeasons b seasons fs).fs.Sub g →
        buildSeasons b seasons g =
          ⟨g, (buildSeasons b seasons fs).ops, .ok ()⟩ := by
  induction seasons with
  | nil =>
    intro fs _
    exact ⟨FS.Sub.refl_sub fs, fun g _ => rfl⟩
  | cons season rest ih =>
    intro fs hok
    rw [buildSeasons_cons b hb] at hok
    set sd := b.base ++ ["Season " ++ toString season.number] with hsd
    set fs1 := createDirAllOS fs sd with hfs1
    cases hres : (buildEpisodes b sd season.videos.enum fs1).res with
    | error e =>
      rw [hres] at hok
      exact absurd hok (by simp)
    | ok u =>
      rw [hres] at hok
      have hok2 : (buildSeasons b rest
          (buildEpisodes b sd season.videos.enum fs1).fs).res = .ok () := hok
      have hres' : (buildEpisodes b sd season.videos.enum fs1).res =
          .ok () := hres
      rcases buildEpisodes_replay b hb sd season.videos.enum fs1 hres'
        with ⟨hsub2, hreplay2⟩
      rcases ih _ hok2 with ⟨hsub3, hreplay3⟩
      have hsub1 : fs.Sub fs1 := createDirAllOS_sub fs sd
      rw [buildSeasons_cons b hb, hres]
      refine ⟨hsub1.trans_sub (hsub2.trans_sub hsub3), ?_⟩
      intro g hg
      have hg' : (buildSeasons b rest
          (buildEpisodes b sd season.videos.enum fs1).fs).fs.Sub g := hg
      have hdirs : ∀ q ∈ ancestorsOf sd, q ∈ g.dirs := by
        intro q hq
        have h1 : q ∈ fs1.dirs := createDirAllOS_mem fs sd q hq
        exact ((hsub2.trans_sub hsub3).trans_sub hg').1 q h1
      rw [buildSeasons_cons b hb, createDirAllOS_of_mem g sd hdirs,
        hreplay2 g (hsub3.trans_sub hg')]
      simp only
      rw [hreplay3 g hg']

/-- `create_channel_directory` outside dry-run mode. -/
theorem create_channel_directory_eq (b : DirectoryBuilder)
    (hb : b.dry_run = false) (fs : FS) :
    b.create_channel_directory fs =
      ⟨createDirAllOS fs b.base,
       if b.dry_run || b.verbose then [Op.mkdir b.base] else [],
       .ok ()⟩ := by
  unfold DirectoryBuilder.create_channel_directory
  rw [hb]
  simp

/-! ## Claim C3 -/

/-- C3: re-running the Projector over an already-built tree is a no-op
success: if a non-preview `build` run succeeds from state `fs`, then a
second run from the resulting state returns without error, creates or
overwrites nothing (the state after the second run equals the state after
the first), and reports the same operations.  An already-existing link
destination is treated as success, not failure. -/
theorem build_eq (b : DirectoryBuilder) (hb : b.dry_run = false) (fs : FS) :
    b.build fs =
      ⟨(buildSeasons b b.channel.seasons (createDirAllOS fs b.base)).fs,
       (if b.dry_run || b.verbose then [Op.mkdir b.base] else []) ++
         (buildSeasons b b.channel.seasons (createDirAllOS fs b.base)).ops,
       (buildSeasons b b.channel.seasons (createDirAllOS fs b.base)).res⟩ := by
  rw [DirectoryBuilder.build, create_channel_directory_eq b hb]

theorem C3_projector_rerun_identical (b : DirectoryBuilder) (fs : FS)
    (hb : b.dry_run = false) (hok : (b.build fs).res = .ok ()) :
    b.build ((b.build fs).fs) = ⟨(b.build fs).fs, (b.build fs).ops, .ok ()⟩ := by
  rw [build_eq b hb fs] at hok
  have hok2 : (buildSeasons b b.channel.seasons
      (createDirAllOS fs b.base)).res = .ok () := hok
  set fs1 := createDirAllOS fs b.base with hfs1
  rcases buildSeasons_replay b hb b.channel.seasons fs1 hok2
    with ⟨hsub2, hreplay2⟩
  set fs2 := (buildSeasons b b.channel.seasons fs1).fs with hfs2
  have hdirs : ∀ q ∈ ancestorsOf b.base, q ∈ fs2.dirs := by
    intro q hq
    exact hsub2.1 q (createDirAllOS_mem fs b.base q hq)
  rw [build_eq b hb fs, build_eq b hb]
  simp only
  rw [createDirAllOS_of_mem fs2 b.base hdirs,
    hreplay2 fs2 (FS.Sub.refl_sub fs2)]

/-- Witness for C3: the rerun equation at a concrete builder and an
initially empty target tree. -/
theorem C3_projector_rerun_identical_witness :
    (DirectoryBuilder.new ["tgt"] ⟨"chan", [⟨1, [gapE2019]⟩]⟩ false).build
        (((DirectoryBuilder.new ["tgt"] ⟨"chan", [⟨1, [gapE2019]⟩]⟩
          false).build ⟨[], []⟩).fs) =
      ⟨(((DirectoryBuilder.new ["tgt"] ⟨"chan", [⟨1, [gapE2019]⟩]⟩
          false).build ⟨[], []⟩)).fs,
       (((DirectoryBuilder.new ["tgt"] ⟨"chan", [⟨1, [gapE2019]⟩]⟩
          false).build ⟨[], []⟩)).ops, .ok ()⟩ :=
  C3_projector_rerun_identical
    (DirectoryBuilder.new ["tgt"] ⟨"chan", [⟨1, [gapE2019]⟩]⟩ false)
    ⟨[], []⟩ rfl (by decide)

/-! ## Claim C4: preview mode -/

theorem create_symlink_dry (b : DirectoryBuilder) (hd : b.dry_run = true)
    (src tgt : SegPath) (fs : FS) :
    b.create_symlink src tgt fs = ⟨fs, [Op.link src tgt], .ok ()⟩ := by
  unfold DirectoryBuilder.create_symlink
  rw [hd]
  simp

theorem linkFiles_cons_some_dry (b : DirectoryBuilder)
    (hd : b.dry_run = true) (sd : SegPath) (nm : String) (file : SegPath)
    (rest : List SegPath) (fs : FS) (ext : String)
    (hx : pathExtension file = some ext) :
    linkFiles b sd nm (file :: rest) fs =
      ⟨(linkFiles b sd nm rest fs).fs,
       [Op.link file (sd ++ [nm ++ "." ++ ext])] ++
         (linkFiles b sd nm rest fs).ops,
       (linkFiles b sd nm rest fs).res⟩ := by
  rw [linkFiles_cons_match b sd nm file rest fs ext hx,
    create_symlink_dry b hd]

/-- A dry run of `linkFiles` leaves the state unchanged and reports the
same operations with the same outcome as a mutating run from any state. -/
theorem linkFiles_parallel (bd br : DirectoryBuilder)
    (hd : bd.dry_run = true) (hr : br.dry_run = false)
    (hv : br.verbose = true) (sd : SegPath) (nm : String)
    (files : List SegPath) :
    ∀ fs fsr : FS,
      (linkFiles bd sd nm files fs).fs = fs ∧
      (linkFiles bd sd nm files fs).ops =
        (linkFiles br sd nm files fsr).ops ∧
      (linkFiles bd sd nm files fs).res =
        (linkFiles br sd nm files fsr).res := by
  induction files with
  | nil => exact fun fs fsr => ⟨rfl, rfl, rfl⟩
  | cons file rest ih =>
    intro fs fsr
    cases hx : pathExtension file with
    | none =>
      rw [linkFiles_cons_none bd sd nm file rest fs hx,
        linkFiles_cons_none br sd nm file rest fsr hx]
      exact ⟨rfl, rfl, rfl⟩
    | some ext =>
      rw [linkFiles_cons_some_dry bd hd sd nm file rest fs ext hx,
        linkFiles_cons_some br hr sd nm file rest fsr ext hx]
      rcases ih fs ((br.create_symlink file (sd ++ [nm ++ "." ++ ext])
        fsr).fs) with ⟨h1, h2, h3⟩
      refine ⟨h1, ?_, h3⟩
      simp [create_symlink_ops, hr, hv, h2]

theorem buildEpisodes_parallel (bd br : DirectoryBuilder)
    (hd : bd.dry_run = true) (hr : br.dry_run = false)
    (hv : br.verbose = true) (sd : SegPath)
    (vids : List (Nat × CatalogueEntry)) :
    ∀ fs fsr : FS,
      (buildEpisodes bd sd vids fs).fs = fs ∧
      (buildEpisodes bd sd vids fs).ops =
        (buildEpisodes br sd vids fsr).ops ∧
      (buildEpisodes bd sd vids fs).res =
        (buildEpisodes br sd vids fsr).res := by
  induction vids with
  | nil => exact fun fs fsr => ⟨rfl, rfl, rfl⟩
  | cons pv rest ih =>
    intro fs fsr
    obtain ⟨ep, vid⟩ := pv
    rcases linkFiles_parallel bd br hd hr hv sd
      (replaceSlash vid.get_title) vid.path fs fsr with ⟨h1, h2, h3⟩
    have h3' : (br.link_video_data sd (ep + 1) vid fsr).res =
        (bd.link_video_data sd (ep + 1) vid fs).res := h3.symm
    rw [buildEpisodes_cons bd, buildEpisodes_cons br]
    cases hres : (bd.link_video_data sd (ep + 1) vid fs).res with
    | error e =>
      rw [hres] at h3'
      rw [h3']
      exact ⟨h1, h2, rfl⟩
    | ok u =>
      rw [hres] at h3'
      rw [h3']
      rcases ih ((bd.link_video_data sd (ep + 1) vid fs).fs)
        ((br.link_video_data sd (ep + 1) vid fsr).fs) with ⟨g1, g2, g3⟩
      exact ⟨g1.trans h1, congrArg₂ (· ++ ·) h2 g2, g3⟩

theorem create_season_directory_dry (b : DirectoryBuilder)
    (hd : b.dry_run = true) (season : Season) (fs : FS) :
    b.create_season_directory season fs =
      ⟨fs, [Op.mkdir (b.base ++ ["Season " ++ toString season.number])],
       .ok (b.base ++ ["Season " ++ toString season.number])⟩ := by
  unfold DirectoryBuilder.create_season_directory
  rw [hd]
  simp

theorem buildSeasons_cons_dry (b : DirectoryBuilder)
    (hd : b.dry_run = true) (season : Season) (rest : List Season)
    (fs : FS) :
    buildSeasons b (season :: rest) fs =
      match (buildEpisodes b (b.base ++ ["Season " ++ toString season.number])
          season.videos.enum fs).res with
      | .error e =>
        ⟨(buildEpisodes b (b.base ++ ["Season " ++ toString season.number])
            season.videos.enum fs).fs,
         [Op.mkdir (b.base ++ ["Season " ++ toString season.number])] ++
           (buildEpisodes b (b.base ++ ["Season " ++ toString season.number])
             season.videos.enum fs).ops,
         .error e⟩
      | .ok _ =>
        ⟨(buildSeasons b rest
            (buildEpisodes b (b.base ++ ["Season " ++ toString season.number])
              season.videos.enum fs).fs).fs,
         [Op.mkdir (b.base ++ ["Season " ++ toString season.number])] ++
           (buildEpisodes b (b.base ++ ["Season " ++ toString season.number])
             season.videos.enum fs).ops ++
           (buildSeasons b rest
             (buildEpisodes b
               (b.base ++ ["Season " ++ toString season.number])
               season.videos.enum fs).fs).ops,
         (buildSeasons b rest
           (buildEpisodes b (b.base ++ ["Season " ++ toString season.number])
             season.videos.enum fs).fs).res⟩ := by
  rw [buildSeasons, create_season_directory_dry b hd]

theorem buildSeasons_parallel (bd br : DirectoryBuilder)
    (hd : bd.dry_run = true) (hr : br.dry_run = false)
    (hv : br.verbose = true) (hbase : bd.base = br.base)
    (seasons : List Season) :
    ∀ fs fsr : FS,
      (buildSeasons bd seasons fs).fs = fs ∧
      (buildSeasons bd seasons fs).ops =
        (buildSeasons br seasons fsr).ops ∧
      (buildSeasons bd seasons fs).res =
        (buildSeasons br seasons fsr).res := by
  induction seasons with
  | nil => exact fun fs fsr => ⟨rfl, rfl, rfl⟩
  | cons season rest ih =>
    intro fs fsr
    set sd := br.base ++ ["Season " ++ toString season.number] with hsd
    rcases buildEpisodes_parallel bd br hd hr hv sd season.videos.enum fs
      (createDirAllOS fsr sd) with ⟨h1, h2, h3⟩
    have h3' : (buildEpisodes br sd season.videos.enum
        (createDirAllOS fsr sd)).res =
        (buildEpisodes bd sd season.videos.enum fs).res := h3.symm
    rw [buildSeasons_cons_dry bd hd, buildSeasons_cons br hr, hbase]
    cases hres : (buildEpisodes bd sd season.videos.enum fs).res with
    | error e =>
      rw [hres] at h3'
      rw [h3']
      refine ⟨h1, ?_, rfl⟩
      simp only [hr, hv, Bool.false_or, Bool.or_true, if_true, h2]
    | ok u =>
      rw [hres] at h3'
      rw [h3']
      rcases ih ((buildEpisodes bd sd season.videos.enum fs).fs)
        ((buildEpisodes br sd season.videos.enum
          (createDirAllOS fsr sd)).fs) with ⟨g1, g2, g3⟩
      refine ⟨g1.trans h1, ?_, g3⟩
      simp only [hr, hv, Bool.false_or, Bool.or_true, if_true, h2, g2]

theorem create_channel_directory_dry (b : DirectoryBuilder)
    (hd : b.dry_run = true) (fs : FS) :
    b.create_channel_directory fs = ⟨fs, [Op.mkdir b.base], .ok ()⟩ := by
  unfold DirectoryBuilder.create_channel_directory
  rw [hd]
  simp

theorem build_dry_eq (b : DirectoryBuilder) (hd : b.dry_run = true)
    (fs : FS) :
    b.build fs =
      ⟨(buildSeasons b b.channel.seasons fs).fs,
       [Op.mkdir b.base] ++ (buildSeasons b b.channel.seasons fs).ops,
       (buildSeasons b b.channel.seasons fs).res⟩ := by
  rw [DirectoryBuilder.build, create_channel_directory_dry b hd]

/-- C4: a preview (`--dry-run`) run of the Projector performs zero
filesystem writes — the target state after the run equals the state before
(first conjunct) — while reporting exactly the operations that the
mutating run (from any target state) would report, computed by the same
path computation (second conjunct), with the same outcome (third
conjunct). -/
theorem C4_preview_writes_nothing_same_ops (base : SegPath)
    (ch : SeasonedStructure) (fs fsr : FS) :
    ((DirectoryBuilder.new base ch true).build fs).fs = fs ∧
    ((DirectoryBuilder.new base ch true).build fs).ops =
      ((DirectoryBuilder.new base ch false).build fsr).ops ∧
    ((DirectoryBuilder.new base ch true).build fs).res =
      ((DirectoryBuilder.new base ch false).build fsr).res := by
  set bd := DirectoryBuilder.new base ch true with hbd
  set br := DirectoryBuilder.new base ch false with hbr
  have hd : bd.dry_run = true := rfl
  have hr : br.dry_run = false := rfl
  have hv : br.verbose = true := rfl
  have hbase : bd.base = br.base := rfl
  have hch : bd.channel = br.channel := rfl
  rcases buildSeasons_parallel bd br hd hr hv hbase bd.channel.seasons fs
    (createDirAllOS fsr br.base) with ⟨h1, h2, h3⟩
  rw [build_dry_eq bd hd, build_eq br hr, ← hbase, ← hch]
  refine ⟨h1, ?_, h3⟩
  rw [h2]
  simp [hr, hv, hbase]

/-! ## Lemmas about file stems and suffixes (Scanner) -/

theorem splitLastDot_eq_none (ys : List Char) (hy : '.' ∉ ys) :
    splitLastDot ys = none := by
  induction ys with
  | nil => rfl
  | cons c cs ih =>
    have hc : c ≠ '.' := fun h => hy (h ▸ List.mem_cons_self c cs)
    have hcs : '.' ∉ cs := fun h => hy (List.mem_cons_of_mem c h)
    rw [splitLastDot, ih hcs, if_neg (fun h => hc h)]

theorem splitLastDot_append (xs ys : List Char) (hy : '.' ∉ ys) :
    splitLastDot (xs ++ '.' :: ys) = some (xs, ys) := by
  induction xs with
  | nil =>
    rw [List.nil_append, splitLastDot, splitLastDot_eq_none ys hy, if_pos rfl]
  | cons c cs ih =>
    rw [List.cons_append, splitLastDot, ih]

theorem fileStem_of_nodot (s : String) (hs : '.' ∉ s.data) :
    fileStem s = s := by
  have hne : s ≠ ".." := by
    intro h
    subst h
    exact hs (by decide)
  rw [fileStem, if_neg hne, splitLastDot_eq_none s.data hs]

theorem extension_of_nodot (s : String) (hs : '.' ∉ s.data) :
    extension s = none := by
  have hne : s ≠ ".." := by
    intro h
    subst h
    exact hs (by decide)
  rw [extension, if_neg hne, splitLastDot_eq_none s.data hs]

/-- The stem of `<stem>.info.json` is `<stem>.info`, never `<stem>`: the
metadata file's own directory entry never matches the sidecar filter. -/
theorem fileStem_info_json (stem : String) :
    fileStem (String.mk (stem.data ++ ".info.json".data)) =
      String.mk (stem.data ++ ".info".data) := by
  have hsplit : splitLastDot (stem.data ++ ".info.json".data) =
      some (stem.data ++ ".info".data, "json".data) := by
    have h1 : stem.data ++ ".info.json".data =
        (stem.data ++ ".info".data) ++ '.' :: "json".data := by
      simp
    rw [h1]
    exact splitLastDot_append _ _ (by decide)
  have hne : String.mk (stem.data ++ ".info.json".data) ≠ ".." := by
    intro h
    have := congrArg (fun s : String => s.data.length) h
    simp at this
  rw [fileStem, if_neg hne]
  simp only [hsplit]
  cases hs : stem.data with
  | nil => rfl
  | cons c cs => rfl

theorem mk_append_info_ne (stem : String) :
    (String.mk (stem.data ++ ".info".data) == stem) = false := by
  refine beq_eq_false_iff_ne.2 ?_
  intro h
  have := congrArg (fun s : String => s.data.length) h
  simp at this

/-! ## Claim C5 -/

/-- C5 counterexample: a `.json` metadata file whose name does not end in
`.info.json` (here `a.json`) is retained by the Scanner as a valid record —
its JSON parses as a non-short video with a resolvable date — yet its
`sidecarPaths` is the empty list, so "sidecarPaths is non-empty for every
retained record" fails as stated. -/
theorem C5_empty_sidecars_counterexample :
    CatalogueEntry.new (.video sampleJson) ["src"] "a.json"
        [⟨"a.json", true⟩] =
      .ok (some ⟨⟨1970, 1, 1, 0⟩, sampleJson, []⟩) := by
  decide

/-- Core shape of `get_other_files` for a `<stem>.info.json` name. -/
theorem get_other_files_eq (parent : SegPath) (fileName : String)
    (listing : List DirEntry) (stem : String)
    (hname : fileName.data = stem.data ++ ".info.json".data) :
    CatalogueEntry.get_other_files parent fileName listing =
      (parent ++ [fileName]) ::
        (listing.filter
          (fun e => e.isFile && fileStem e.name == stem)).map
          (fun e => parent ++ [e.name]) := by
  have hguard : ".info.json".data.isSuffixOf fileName.data = true := by
    rw [List.isSuffixOf_iff_suffix, hname]
    exact ⟨stem.data, rfl⟩
  have hstrip : String.mk (fileName.data.take
      (fileName.data.length - 10)) = stem := by
    rw [hname]
    have hlen : stem.data.length + ".info.json".data.length - 10 =
        stem.data.length := by simp
    rw [List.length_append, hlen, List.take_left' rfl]
  rw [CatalogueEntry.get_other_files, if_pos hguard, hstrip]

/-- The metadata file's own directory entry never matches the sidecar
filter: its stem is `<stem>.info`, not `<stem>`. -/
theorem metadata_entry_no_match (fileName stem : String)
    (hname : fileName.data = stem.data ++ ".info.json".data) :
    (fileStem fileName == stem) = false := by
  have hmk : fileName = String.mk (stem.data ++ ".info.json".data) := by
    cases fileName
    exact congrArg String.mk (by simpa using hname)
  rw [hmk, fileStem_info_json stem, mk_append_info_ne]

/-- C5 (amended): for a retained record whose metadata file name ends with
`.info.json`, the sidecar paths are the metadata file's own path first —
regardless of the enumeration order of `listing` — followed by exactly the
regular files of the parent directory whose file stem equals the stripped
metadata name (first conjunct); the metadata file's own directory entry
never matches that filter, its stem being `<stem>.info` (second conjunct).
For names not ending in `.info.json` the collection is empty, as the
counterexample shows. -/
theorem C5_sidecars_metadata_first (parent : SegPath) (fileName : String)
    (listing : List DirEntry) (stem : String)
    (hname : fileName.data = stem.data ++ ".info.json".data) :
    CatalogueEntry.get_other_files parent fileName listing =
      (parent ++ [fileName]) ::
        (listing.filter
          (fun e => e.isFile && fileStem e.name == stem)).map
          (fun e => parent ++ [e.name])
    ∧ (∀ e ∈ listing, e.name = fileName →
        (e.isFile && (fileStem e.name == stem)) = false) := by
  refine ⟨get_other_files_eq parent fileName listing stem hname, ?_⟩
  intro e _ hename
  rw [hename, metadata_entry_no_match fileName stem hname, Bool.and_false]

/-- Witness for C5's amended theorem: metadata `v.info.json` in a directory
that also holds `v.mp4`, `v.info.json` itself, an unrelated file, and a
subdirectory named `v`; the collection starts with the metadata path and
keeps exactly the matching regular files. -/
theorem C5_sidecars_metadata_first_witness :
    CatalogueEntry.get_other_files ["d"] "v.info.json"
        [⟨"other.mp4", true⟩, ⟨"v.mp4", true⟩, ⟨"v.info.json", true⟩,
          ⟨"v", false⟩] =
      [["d", "v.info.json"], ["d", "v.mp4"]] ∧
    ((⟨"v.info.json", true⟩ : DirEntry).isFile &&
      (fileStem "v.info.json" == "v")) = false :=
  ⟨by
    rw [(C5_sidecars_metadata_first ["d"] "v.info.json"
      [⟨"other.mp4", true⟩, ⟨"v.mp4", true⟩, ⟨"v.info.json", true⟩,
        ⟨"v", false⟩] "v" (by decide)).1]
    decide,
   (C5_sidecars_metadata_first ["d"] "v.info.json"
      [⟨"other.mp4", true⟩, ⟨"v.mp4", true⟩, ⟨"v.info.json", true⟩,
        ⟨"v", false⟩] "v" (by decide)).2
     ⟨"v.info.json", true⟩ (by decide) rfl⟩

/-! ## Lemmas about `VideoCatalogue.build` -/

theorem build_cons_not_json (f : SourceFile) (fs : List SourceFile)
    (h : (extension f.name == some "json") = false) :
    VideoCatalogue.build (f :: fs) = VideoCatalogue.build fs := by
  rw [VideoCatalogue.build]
  rw [if_neg]
  rw [h]
  exact Bool.false_ne_true

theorem build_cons_parse_error (f : SourceFile) (fs : List SourceFile)
    (er : Err) (hext : (extension f.name == some "json") = true)
    (hj : f.json = .error er) :
    VideoCatalogue.build (f :: fs) = .error er := by
  rw [VideoCatalogue.build, if_pos hext, hj]

theorem build_cons_json_ok (f : SourceFile) (fs : List SourceFile)
    (j : InfoJson) (hext : (extension f.name == some "json") = true)
    (hj : f.json = .ok j) :
    VideoCatalogue.build (f :: fs) =
      match CatalogueEntry.new j f.parent f.name f.listing with
      | .error e => .error e
      | .ok none => VideoCatalogue.build fs
      | .ok (some entry) =>
        match VideoCatalogue.build fs with
        | .error e => .error e
        | .ok rest => .ok (entry :: rest) := by
  rw [VideoCatalogue.build, if_pos hext, hj]

/-- An entry that `CatalogueEntry.new` retains is never short-form. -/
theorem new_some_not_short {j : InfoJson} {parent : SegPath}
    {fileName : String} {listing : List DirEntry} {entry : CatalogueEntry}
    (h : CatalogueEntry.new j parent fileName listing = .ok (some entry)) :
    entry.json.is_short = false := by
  cases j with
  | playlist => simp [CatalogueEntry.new] at h
  | video v =>
    rw [CatalogueEntry.new] at h
    by_cases hs : v.is_short = true
    · rw [if_pos hs] at h
      simp at h
    · rw [if_neg hs] at h
      cases hd : v.get_date with
      | error e =>
        rw [hd] at h
        simp at h
      | ok d =>
        rw [hd] at h
        have h2 : some (⟨d, v, CatalogueEntry.get_other_files parent
            fileName listing⟩ : CatalogueEntry) = some entry := by
          simpa using h
        have h3 : entry = ⟨d, v, CatalogueEntry.get_other_files parent
            fileName listing⟩ := (Option.some.inj h2).symm
        rw [h3]
        simpa using hs

/-- Every entry of a successfully built catalogue is non-short-form. -/
theorem build_no_shorts : ∀ (files : List SourceFile)
    (cat : List CatalogueEntry), VideoCatalogue.build files = .ok cat →
    ∀ e ∈ cat, e.json.is_short = false := by
  intro files
  induction files with
  | nil =>
    intro cat h e he
    rw [VideoCatalogue.build] at h
    have : cat = [] := (Except.ok.inj h).symm
    subst this
    simp at he
  | cons f fs ih =>
    intro cat h e he
    by_cases hext : (extension f.name == some "json") = true
    · cases hj : f.json with
      | error er =>
        rw [build_cons_parse_error f fs er hext hj] at h
        simp at h
      | ok j =>
        rw [build_cons_json_ok f fs j hext hj] at h
        cases hn : CatalogueEntry.new j f.parent f.name f.listing with
        | error er =>
          rw [hn] at h
          simp at h
        | ok oe =>
          rw [hn] at h
          cases oe with
          | none => exact ih cat h e he
          | some entry =>
            cases hb : VideoCatalogue.build fs with
            | error er =>
              rw [hb] at h
              simp at h
            | ok rest =>
              rw [hb] at h
              have hcat : entry :: rest = cat := Except.ok.inj h
              rw [← hcat] at he
              rcases List.mem_cons.1 he with he | he
              · subst he
                exact new_some_not_short hn
              · exact ih rest hb e he
    · rw [build_cons_not_json f fs (by simpa using hext)] at h
      exact ih cat h e he

/-- A date-resolution failure of a retained (json, video, non-short)
record makes the whole run fail: no catalogue is produced. -/
theorem build_fails_on_bad_date : ∀ (files : List SourceFile)
    (f : SourceFile) (v : VideoJson), f ∈ files →
    extension f.name = some "json" → f.json = .ok (.video v) →
    v.is_short = false → v.timestamp = none →
    parseYmd v.upload_date = none →
    ∀ cat, VideoCatalogue.build files ≠ .ok cat := by
  intro files
  induction files with
  | nil =>
    intro f v hf
    simp at hf
  | cons f0 fs ih =>
    intro f v hf hext hjson hshort hts hparse cat hok
    rcases List.mem_cons.1 hf with hf | hf
    · subst hf
      have hext' : (extension f.name == some "json") = true := by
        rw [hext]; rfl
      rw [build_cons_json_ok f fs (.video v) hext' hjson] at hok
      have hgd : v.get_date = .error .dateParse := by
        rw [VideoJson.get_date, hts, hparse]
      have hnew : CatalogueEntry.new (.video v) f.parent f.name f.listing =
          .error .dateParse := by
        rw [CatalogueEntry.new, if_neg (by rw [hshort]; exact
          Bool.false_ne_true), hgd]
      rw [hnew] at hok
      simp at hok
    · by_cases hext0 : (extension f0.name == some "json") = true
      · cases hj : f0.json with
        | error er =>
          rw [build_cons_parse_error f0 fs er hext0 hj] at hok
          simp at hok
        | ok j =>
          rw [build_cons_json_ok f0 fs j hext0 hj] at hok
          cases hn : CatalogueEntry.new j f0.parent f0.name f0.listing with
          | error er =>
            rw [hn] at hok
            simp at hok
          | ok oe =>
            rw [hn] at hok
            cases oe with
            | none => exact ih f v hf hext hjson hshort hts hparse cat hok
            | some entry =>
              cases hb : VideoCatalogue.build fs with
              | error er =>
                rw [hb] at hok
                simp at hok
              | ok rest =>
                exact ih f v hf hext hjson hshort hts hparse rest hb
      · rw [build_cons_not_json f0 fs (by simpa using hext0)] at hok
        exact ih f v hf hext hjson hshort hts hparse cat hok

/-! ## Claim C6 -/

/-- C6: `effectiveDate` resolution.  An explicit epoch timestamp always
takes precedence (first conjunct); `timestamp = 0` resolves to the Unix
epoch instant 1970-01-01T00:00:00 (second conjunct); with no timestamp, an
8-digit `upload_date` parses to midnight UTC of that calendar date (third
conjunct), e.g. `"20200101"` to midnight on 2020-01-01 (fourth conjunct);
and when neither strategy succeeds for a retained record, the whole run
fails — `VideoCatalogue.build` returns no catalogue (last conjunct). -/
theorem C6_effective_date_resolution :
    (∀ (v : VideoJson) (t : Int), v.timestamp = some t →
      v.get_date = .ok (fromTimestamp t))
    ∧ (∀ v : VideoJson, v.timestamp = some 0 →
      v.get_date = .ok ⟨1970, 1, 1, 0⟩)
    ∧ (∀ (v : VideoJson) (y : Int) (m d : Nat), v.timestamp = none →
      parseYmd v.upload_date = some (y, m, d) →
      v.get_date = .ok ⟨y, m, d, 0⟩)
    ∧ (∀ v : VideoJson, v.timestamp = none → v.upload_date = "20200101" →
      v.get_date = .ok ⟨2020, 1, 1, 0⟩)
    ∧ (∀ (files : List SourceFile) (f : SourceFile) (v : VideoJson),
      f ∈ files → extension f.name = some "json" →
      f.json = .ok (.video v) → v.is_short = false →
      v.timestamp = none → parseYmd v.upload_date = none →
      ∀ cat, VideoCatalogue.build files ≠ .ok cat) := by
  refine ⟨?_, ?_, ?_, ?_, build_fails_on_bad_date⟩
  · intro v t ht
    rw [VideoJson.get_date, ht]
  · intro v ht
    rw [VideoJson.get_date, ht]
    exact congrArg Except.ok (by decide)
  · intro v y m d ht hp
    rw [VideoJson.get_date, ht, hp]
  · intro v ht hu
    rw [VideoJson.get_date, ht, hu]
    have : parseYmd "20200101" = some (2020, 1, 1) := by decide
    rw [this]

/-- Witness for C6: its conjuncts applied to concrete records — a record
with `timestamp = 0`, a record with only `upload_date = "20200101"`, and a
one-file scan whose only record has neither resolution strategy
succeeding. -/
theorem C6_effective_date_resolution_witness :
    (VideoJson.mk "i" "t" "c" "ft" "" (some 0) none).get_date =
      .ok ⟨1970, 1, 1, 0⟩ ∧
    (VideoJson.mk "i" "t" "c" "ft" "20200101" none none).get_date =
      .ok ⟨2020, 1, 1, 0⟩ ∧
    ∀ cat, VideoCatalogue.build
      [⟨"a.json", ["src"],
        .ok (.video (VideoJson.mk "i" "t" "c" "ft" "" none none)), []⟩] ≠
      .ok cat :=
  ⟨C6_effective_date_resolution.2.1 _ rfl,
   C6_effective_date_resolution.2.2.2.1 _ rfl rfl,
   fun cat => C6_effective_date_resolution.2.2.2.2
     [⟨"a.json", ["src"],
       .ok (.video (VideoJson.mk "i" "t" "c" "ft" "" none none)), []⟩]
     ⟨"a.json", ["src"],
       .ok (.video (VideoJson.mk "i" "t" "c" "ft" "" none none)), []⟩
     (VideoJson.mk "i" "t" "c" "ft" "" none none)
     (List.mem_cons_self _ _) (by decide) rfl rfl rfl (by decide) cat⟩

/-! ## Claim C8 -/

/-- C8: a `playlist` record is always discarded (first conjunct); a video
record that is short-form — in particular one whose playlist URL ends in
`/shorts` (third conjunct) — is discarded (second conjunct); a video with
no playlist URL is never treated as short-form (fourth conjunct); and no
entry of any successfully built catalogue is short-form (last
conjunct). -/
theorem C8_playlist_and_shorts_discarded :
    (∀ (parent : SegPath) (fileName : String) (listing : List DirEntry),
      CatalogueEntry.new .playlist parent fileName listing = .ok none)
    ∧ (∀ (v : VideoJson) (parent : SegPath) (fileName : String)
        (listing : List DirEntry), v.is_short = true →
      CatalogueEntry.new (.video v) parent fileName listing = .ok none)
    ∧ (∀ (v : VideoJson) (u : String), v.playlist_webpage_url = some u →
      strEndsWith u "/shorts" = true → v.is_short = true)
    ∧ (∀ v : VideoJson, v.playlist_webpage_url = none → v.is_short = false)
    ∧ (∀ (files : List SourceFile) (cat : List CatalogueEntry),
      VideoCatalogue.build files = .ok cat →
      ∀ e ∈ cat, e.json.is_short = false) := by
  refine ⟨?_, ?_, ?_, ?_, build_no_shorts⟩
  · intro parent fileName listing
    rfl
  · intro v parent fileName listing hs
    rw [CatalogueEntry.new, if_pos hs]
  · intro v u hu hend
    rw [VideoJson.is_short, hu]
    exact hend
  · intro v hu
    rw [VideoJson.is_short, hu]

/-- Witness for C8: a short-form video record (URL ending in `/shorts`) is
discarded, and a crafted two-record scan retains only non-short entries. -/
theorem C8_playlist_and_shorts_discarded_witness :
    CatalogueEntry.new
      (.video (VideoJson.mk "i" "t" "c" "ft" "" (some 0)
        (some "https://x/shorts"))) ["src"] "a.info.json" [] = .ok none ∧
    (VideoJson.mk "i" "t" "c" "ft" "" (some 0)
      (some "https://x/shorts")).is_short = true :=
  ⟨C8_playlist_and_shorts_discarded.2.1
      (VideoJson.mk "i" "t" "c" "ft" "" (some 0) (some "https://x/shorts"))
      ["src"] "a.info.json" []
      (C8_playlist_and_shorts_discarded.2.2.1
        (VideoJson.mk "i" "t" "c" "ft" "" (some 0)
          (some "https://x/shorts"))
        "https://x/shorts" rfl (by decide)),
   C8_playlist_and_shorts_discarded.2.2.1
     (VideoJson.mk "i" "t" "c" "ft" "" (some 0) (some "https://x/shorts"))
     "https://x/shorts" rfl (by decide)⟩

/-! ## Claim C7 -/

theorem sum_map_single {β : Type} [DecidableEq β] (cs : List β)
    (f : β → Nat) (c0 : β) (hnd : cs.Nodup) (hc0 : c0 ∈ cs)
    (hz : ∀ c ∈ cs, c ≠ c0 → f c = 0) : (cs.map f).sum = f c0 := by
  induction cs with
  | nil => simp at hc0
  | cons a cs ih =>
    rcases List.mem_cons.1 hc0 with h | h
    · subst h
      have hrest : ∀ x ∈ cs.map f, x = 0 := by
        intro x hx
        rcases List.mem_map.1 hx with ⟨c, hc, hcx⟩
        have hcne : c ≠ c0 := fun hca =>
          (List.nodup_cons.1 hnd).1 (hca ▸ hc)
        rw [← hcx]
        exact hz c (List.mem_cons_of_mem c0 hc) hcne
      rw [List.map_cons, List.sum_cons, List.sum_eq_zero hrest]
      omega
    · have ha : f a = 0 :=
        hz a (List.mem_cons_self a cs) (fun hac =>
          (List.nodup_cons.1 hnd).1 (hac ▸ h))
      rw [List.map_cons, List.sum_cons, ha,
        ih (List.nodup_cons.1 hnd).2 h
          (fun c hc hcc => hz c (List.mem_cons_of_mem a hc) hcc)]
      omega

theorem count_by_channel (raw : List CatalogueEntry) (c : String)
    (e : CatalogueEntry) :
    (VideoCatalogue.by_channel raw c).count e =
      if e.json.channel = c then raw.count e else 0 := by
  unfold VideoCatalogue.by_channel
  by_cases h : e.json.channel = c
  · rw [if_pos h]
    exact List.count_filter (by simpa using h)
  · rw [if_neg h]
    refine List.count_eq_zero_of_not_mem ?_
    intro hmem
    exact h (by simpa using (List.mem_filter.1 hmem).2)

/-- C7: the `by_channel` grouping is an exact-match partition: flattening
the groups of all occurring channel keys is a permutation of the scan
output — no record lost or duplicated (first conjunct); each group
preserves the records' relative order from the scan output (second
conjunct, as a sublist); a record is in the group of `c` exactly when it is
a scanned record whose channel equals `c` (third conjunct); and the key
set has no duplicate channel (last conjunct). -/
theorem C7_by_channel_partition (raw : List CatalogueEntry) :
    ((VideoCatalogue.channelKeys raw).map
      (VideoCatalogue.by_channel raw)).flatten ~ raw
    ∧ (∀ c, VideoCatalogue.by_channel raw c <+ raw)
    ∧ (∀ (c : String) (e : CatalogueEntry),
        e ∈ VideoCatalogue.by_channel raw c ↔
          e ∈ raw ∧ e.json.channel = c)
    ∧ (VideoCatalogue.channelKeys raw).Nodup := by
  refine ⟨?_, ?_, ?_, List.nodup_dedup _⟩
  · rw [List.perm_iff_count]
    intro e
    rw [List.count_flatten, List.map_map]
    by_cases he : e ∈ raw
    · have hc0 : e.json.channel ∈ VideoCatalogue.channelKeys raw :=
        List.mem_dedup.2 (List.mem_map.2 ⟨e, he, rfl⟩)
      have hsum : ((VideoCatalogue.channelKeys raw).map
          (fun c => (VideoCatalogue.by_channel raw c).count e)).sum =
          (VideoCatalogue.by_channel raw e.json.channel).count e := by
        refine sum_map_single _ _ e.json.channel (List.nodup_dedup _) hc0 ?_
        intro c _ hcc
        rw [count_by_channel, if_neg (fun h => hcc h.symm)]
      have hcomp : (List.count e ∘ VideoCatalogue.by_channel raw) =
          fun c => (VideoCatalogue.by_channel raw c).count e := rfl
      rw [hcomp, hsum, count_by_channel, if_pos rfl]
    · have hz : ∀ x ∈ (VideoCatalogue.channelKeys raw).map
          (List.count e ∘ VideoCatalogue.by_channel raw), x = 0 := by
        intro x hx
        rcases List.mem_map.1 hx with ⟨c, _, hcx⟩
        rw [← hcx]
        refine List.count_eq_zero_of_not_mem ?_
        intro hmem
        exact he (List.mem_of_mem_filter hmem)
      rw [List.sum_eq_zero hz, List.count_eq_zero_of_not_mem he]
  · intro c
    exact List.filter_sublist raw
  · intro c e
    unfold VideoCatalogue.by_channel
    rw [List.mem_filter]
    simp

/-- Witness for C7: the membership characterization applied at a concrete
two-channel catalogue. -/
theorem C7_by_channel_partition_witness :
    gapE2019 ∈ VideoCatalogue.by_channel [gapE2019, gapE2022] "chan" :=
  ((C7_by_channel_partition [gapE2019, gapE2022]).2.2.1 "chan"
    gapE2019).2 ⟨List.mem_cons_self _ _, rfl⟩

/-! ## Lemmas about `linkFiles` outcomes and reported names -/

theorem create_symlink_res_ok (b : DirectoryBuilder) (src tgt : SegPath)
    (fs : FS) : (b.create_symlink src tgt fs).res = .ok () := by
  unfold DirectoryBuilder.create_symlink symlinkOS
  cases hd : b.dry_run
  · simp only [hd, if_neg Bool.false_ne_true]
    by_cases ho : FS.Occupied fs tgt
    · simp [ho]
    · simp [ho]
  · simp

/-- The outcome of `linkFiles` is a `panicNoExtension` abort exactly when
some sidecar path has no extension, and success otherwise — in every
mode. -/
theorem linkFiles_res (b : DirectoryBuilder) (sd : SegPath) (nm : String) :
    ∀ (files : List SegPath) (fs : FS),
      (linkFiles b sd nm files fs).res =
        (if files.all (fun f => (pathExtension f).isSome)
          then .ok () else .error .panicNoExtension) := by
  intro files
  induction files with
  | nil => intro fs; rfl
  | cons file rest ih =>
    intro fs
    cases hx : pathExtension file with
    | none =>
      rw [linkFiles_cons_none b sd nm file rest fs hx]
      have hall : ((file :: rest).all
          (fun f => (pathExtension f).isSome)) = false := by
        simp [hx]
      rw [hall, if_neg Bool.false_ne_true]
    | some ext =>
      rw [linkFiles_cons_match b sd nm file rest fs ext hx,
        create_symlink_res_ok b]
      have hall : ((file :: rest).all (fun f => (pathExtension f).isSome)) =
          rest.all (fun f => (pathExtension f).isSome) := by
        simp [hx]
      rw [hall]
      exact ih _

/-- The operations reported by `linkFiles` in verbose mode: one link per
sidecar file, named `<base name>.<extension>` inside the season
directory. -/
theorem linkFiles_ops (b : DirectoryBuilder) (hv : b.verbose = true)
    (sd : SegPath) (nm : String) :
    ∀ (files : List SegPath) (fs : FS),
      (∀ f ∈ files, (pathExtension f).isSome) →
      (linkFiles b sd nm files fs).ops =
        files.map (fun f => Op.link f
          (sd ++ [nm ++ "." ++ (pathExtension f).getD ""])) := by
  intro files
  induction files with
  | nil => intro fs _; rfl
  | cons file rest ih =>
    intro fs hext
    cases hx : pathExtension file with
    | none =>
      have := hext file (List.mem_cons_self file rest)
      rw [hx] at this
      simp at this
    | some ext =>
      rw [linkFiles_cons_match b sd nm file rest fs ext hx,
        create_symlink_res_ok b]
      simp only [List.map_cons, hx]
      rw [create_symlink_ops, hv, Bool.or_true, if_pos rfl]
      rw [ih _ (fun f hf => hext f (List.mem_cons_of_mem file hf))]
      rfl

/-! ## Claim C9 -/

/-- Modelled from the spec's words, for comparison with the code's
`get_title`: the display title preferring `fullTitle` when its length *in
characters* exceeds 1. -/
def get_title_spec (e : CatalogueEntry) : String :=
  if 1 < e.json.fulltitle.length then e.json.fulltitle else e.json.title

/-- A record whose `fulltitle` is the single two-byte character `é`. -/
def accentEntry : CatalogueEntry :=
  ⟨⟨2020, 1, 1, 0⟩, ⟨"i", "T", "c", "é", "", some 0, none⟩, [["d", "v.mp4"]]⟩

/-- A record whose `fulltitle` is `A/B` with one `mp4` sidecar. -/
def slashEntry : CatalogueEntry :=
  ⟨⟨2020, 1, 1, 0⟩, ⟨"i", "t", "c", "A/B", "", some 0, none⟩,
    [["d", "v.mp4"]]⟩

/-- C9 counterexample: the claim's title rule — `fullTitle` when its
length is greater than 1 *character* — disagrees with the code on a
one-character, two-byte `fulltitle` (`é`): Rust's `len()` counts bytes, so
the code picks `fulltitle` where the claim's rule picks `title`. -/
theorem C9_title_rule_counterexample :
    CatalogueEntry.get_title accentEntry = "é" ∧
    get_title_spec accentEntry = "T" ∧
    CatalogueEntry.get_title accentEntry ≠ get_title_spec accentEntry ∧
    accentEntry.json.fulltitle.length = 1 ∧
    accentEntry.json.fulltitle.utf8ByteSize = 2 := by
  refine ⟨rfl, ?_, ?_, ?_, ?_⟩ <;> decide

/-- C9 (amended): the base name of every created link is the video's
display title — `fulltitle` when its UTF-8 *byte* length (Rust
`String::len`) exceeds 1, else `title` (second conjunct) — with every `/`
replaced by `_` and every other character unchanged (third conjunct),
followed by a dot and the sidecar file's own extension (first conjunct:
the reported link operations name exactly these paths); in particular a
title `A/B` with extension `mp4` yields the literal name `A_B.mp4` (last
conjunct). -/
theorem C9_link_base_names (b : DirectoryBuilder) (sd : SegPath) (ep : Nat)
    (e : CatalogueEntry) (fs : FS) (hv : b.verbose = true)
    (hext : ∀ f ∈ e.path, (pathExtension f).isSome) :
    (b.link_video_data sd ep e fs).ops =
      e.path.map (fun f => Op.link f
        (sd ++ [replaceSlash e.get_title ++ "." ++
          (pathExtension f).getD ""]))
    ∧ e.get_title = (if 1 < e.json.fulltitle.utf8ByteSize
        then e.json.fulltitle else e.json.title)
    ∧ (∀ s : String, (replaceSlash s).data =
        s.data.map (fun c => if c = '/' then '_' else c))
    ∧ replaceSlash "A/B" ++ "." ++ "mp4" = "A_B.mp4" := by
  refine ⟨linkFiles_ops b hv sd (replaceSlash e.get_title) e.path fs hext,
    rfl, fun s => rfl, by decide⟩

/-- Witness for C9's amended theorem: the single link of `slashEntry` is
reported literally as `A_B.mp4` inside the season directory. -/
theorem C9_link_base_names_witness :
    ((DirectoryBuilder.new ["t"] ⟨"c", []⟩ false).link_video_data
        ["t", "c", "Season 1"] 1 slashEntry ⟨[], []⟩).ops =
      [Op.link ["d", "v.mp4"] ["t", "c", "Season 1", "A_B.mp4"]] :=
  ((C9_link_base_names (DirectoryBuilder.new ["t"] ⟨"c", []⟩ false)
      ["t", "c", "Season 1"] 1 slashEntry ⟨[], []⟩ rfl
      (by decide)).1).trans (by decide)

/-! ## Claim C10 -/

/-- A directory-listing name with no dot in it. -/
theorem extension_stem_none (stem : String) (hnd : '.' ∉ stem.data) :
    pathExtension ([stem] : SegPath) = none := by
  rw [pathExtension]
  simp only [List.getLast?_singleton]
  exact extension_of_nodot stem hnd

/-- C10: `link_video_data` aborts by the `unwrap` panic exactly when some
collected sidecar path has no file extension (first conjunct), and is
total — returns success — under the precondition that every sidecar path
has an extension (second conjunct).  The sidecar scan does collect such a
path: for metadata `<stem>.info.json`, a regular file named exactly
`<stem>` (no dot) in the same directory is collected and has no extension
(third and fourth conjuncts). -/
theorem C10_missing_extension_panics (b : DirectoryBuilder) (sd : SegPath)
    (ep : Nat) (e : CatalogueEntry) (fs : FS) (parent : SegPath)
    (fileName stem : String) (listing : List DirEntry)
    (hname : fileName.data = stem.data ++ ".info.json".data)
    (hnd : '.' ∉ stem.data) (hmem : (⟨stem, true⟩ : DirEntry) ∈ listing) :
    ((b.link_video_data sd ep e fs).res = .error .panicNoExtension ↔
      ¬ (e.path.all (fun f => (pathExtension f).isSome)) = true)
    ∧ ((e.path.all (fun f => (pathExtension f).isSome)) = true →
      (b.link_video_data sd ep e fs).res = .ok ())
    ∧ (parent ++ [stem]) ∈
        CatalogueEntry.get_other_files parent fileName listing
    ∧ pathExtension (parent ++ [stem]) = none := by
  have hres := linkFiles_res b sd (replaceSlash e.get_title) e.path fs
  refine ⟨?_, ?_, ?_, ?_⟩
  · constructor
    · intro h
      intro hall
      rw [DirectoryBuilder.link_video_data, hres, if_pos hall] at h
      exact absurd h (by simp)
    · intro h
      rw [DirectoryBuilder.link_video_data, hres,
        if_neg (by simpa using h)]
  · intro hall
    rw [DirectoryBuilder.link_video_data, hres, if_pos hall]
  · rw [get_other_files_eq parent fileName listing stem hname]
    refine List.mem_cons_of_mem _ ?_
    refine List.mem_map.2 ⟨⟨stem, true⟩, ?_, rfl⟩
    refine List.mem_filter.2 ⟨hmem, ?_⟩
    simp [fileStem_of_nodot stem hnd]
  · have h1 : (parent ++ [stem]).getLast? = some stem :=
      List.getLast?_concat parent
    rw [pathExtension, h1]
    exact extension_of_nodot stem hnd

/-- Witness for C10: a record with an extension-less sidecar path panics;
the scan of `v.info.json` next to a regular file `v` collects the
extension-less path. -/
theorem C10_missing_extension_panics_witness :
    (((DirectoryBuilder.new ["t"] ⟨"c", []⟩ false).link_video_data
        ["t", "c", "Season 1"] 1
        ⟨⟨2020, 1, 1, 0⟩, sampleJson, [["d", "v"]]⟩ ⟨[], []⟩).res =
      .error .panicNoExtension) ∧
    (["d", "v"] : SegPath) ∈
      CatalogueEntry.get_other_files ["d"] "v.info.json"
        [⟨"v.info.json", true⟩, ⟨"v", true⟩] :=
  ⟨((C10_missing_extension_panics
      (DirectoryBuilder.new ["t"] ⟨"c", []⟩ false) ["t", "c", "Season 1"] 1
      ⟨⟨2020, 1, 1, 0⟩, sampleJson, [["d", "v"]]⟩ ⟨[], []⟩ ["d"]
      "v.info.json" "v" [⟨"v.info.json", true⟩, ⟨"v", true⟩]
      (by decide) (by decide) (by decide)).1).2 (by decide),
   (C10_missing_extension_panics
      (DirectoryBuilder.new ["t"] ⟨"c", []⟩ false) ["t", "c", "Season 1"] 1
      ⟨⟨2020, 1, 1, 0⟩, sampleJson, [["d", "v"]]⟩ ⟨[], []⟩ ["d"]
      "v.info.json" "v" [⟨"v.info.json", true⟩, ⟨"v", true⟩]
      (by decide) (by decide) (by decide)).2.2.1⟩

end Ytdlp
